import Mathlib

/-!
# Interference-aware scoring: `pkg/interferenceaware`

A shallow embedding of the scoring core of the two plugins `InterferenceBIO`
and `InterferenceCPU` (`interferencebio.go`, `interferencecpu.go`) and of the
helpers in `util.go`, followed by the properties established about them.

Modelling conventions.

* A Go `string` is embedded as a Lean `String` (a sequence of code points).
  Every pattern the code searches for is a single ASCII byte, which never
  occurs inside a multi-byte UTF-8 sequence, so replacing over bytes and over
  code points agree on valid UTF-8 text.
* An `int64` is embedded as an `Int` kept in the range `[-2^63, 2^63)`; every
  arithmetic operation of the source wraps explicitly (`wrapInt64`).
* A `float64` is embedded as the type `Float64` below: finite dyadic values,
  the two infinities and NaN, with round-to-nearest-even addition.
* The file system and the JSON decoder are a parameter (`FileSystem`); a Go
  result pair `(value, error)` is a pair of options, `none` standing for nil.
-/

namespace InterferenceAware

/-! ## Strings: `strings.ReplaceAll` and `sanitizeTaskName` (util.go) -/

/-- Left-to-right scan of `strings.ReplaceAll` for a non-empty pattern `old`.
The counter is the number of characters of the current match that are still to
be consumed: when it is `0` the scan looks for `old` at the current position,
emits `new` on a match (and skips the rest of the match), and otherwise copies
the current character. Matches therefore never overlap. -/
def replaceAllFrom (old new : List Char) : Nat → List Char → List Char
  | _, [] => []
  | skip + 1, _ :: cs => replaceAllFrom old new skip cs
  | 0, c :: cs =>
    if old.isPrefixOf (c :: cs) then
      new ++ replaceAllFrom old new (old.length - 1) cs
    else
      c :: replaceAllFrom old new 0 cs

/-- Go `strings.ReplaceAll(s, old, new)`: every non-overlapping occurrence of
`old` in `s` is replaced by `new`. An empty `old` matches before every code
point and at the end of the string. -/
def replaceAll (s old new : String) : String :=
  if old.data = [] then
    ⟨new.data ++ s.data.flatMap (fun c => c :: new.data)⟩
  else
    ⟨replaceAllFrom old.data new.data 0 s.data⟩

/-- The function `sanitizeTaskName` of util.go: four successive `ReplaceAll` passes. -/
def sanitizeTaskName (taskName : String) : String :=
  let key := replaceAll taskName " " ""
  let key := replaceAll key ":" "."
  let key := replaceAll key "(" "."
  let key := replaceAll key ")" "."
  key

/-- What the specification says one character becomes: a space is dropped,
each of `:`, `(` and `)` becomes `.`, any other character is kept. -/
def sanitizeChar (c : Char) : List Char :=
  if c = ' ' then []
  else if c = ':' ∨ c = '(' ∨ c = ')' then ['.']
  else [c]

/-- The specification of the sanitizer, written from its wording: the
character-by-character transformation of the input, in order. -/
def sanitizeSpec (x : String) : String :=
  ⟨x.data.flatMap sanitizeChar⟩

/-! ## Machine integers: `int64` -/

/-- Two's-complement wrap-around of a mathematical integer into the `int64`
range `[-2^63, 2^63)`. -/
def wrapInt64 (x : Int) : Int :=
  (x + 2 ^ 63) % 2 ^ 64 - 2 ^ 63

/-- Go `a * b` on `int64`. -/
def int64Mul (a b : Int) : Int := wrapInt64 (a * b)

/-- Go `a - b` on `int64`. -/
def int64Sub (a b : Int) : Int := wrapInt64 (a - b)

/-- Go `a / b` on `int64`: the quotient truncated toward zero. The only
division of the source is guarded by `higherScore > 0`, so the divisor is
never zero there. -/
def int64Div (a b : Int) : Int := wrapInt64 (Int.tdiv a b)

/-- The values an `int64` variable can hold. -/
def IsInt64 (x : Int) : Prop := -2 ^ 63 ≤ x ∧ x < 2 ^ 63

instance (x : Int) : Decidable (IsInt64 x) := by unfold IsInt64; infer_instance

/-! ## Floating point: `float64` -/

/-- A `float64` value. `finite neg mant exp` stands for
`(-1)^neg * mant * 2^exp`; the binary64 values are those with `mant < 2^53`
and `-1074 ≤ exp ≤ 971` (the sign is kept apart so that `-0` exists). -/
inductive Float64 where
  | finite (neg : Bool) (mant : Nat) (exp : Int)
  | inf (neg : Bool)
  | nan
  deriving DecidableEq, Repr

namespace Float64

/-- The literal `0.0`. -/
def zero : Float64 := .finite false 0 0

/-- The position of the highest set bit of `n` (and `0` for `n < 2`), found by
halving at most `fuel` times. -/
def log2Fuel : Nat → Nat → Nat
  | 0, _ => 0
  | fuel + 1, n => if n < 2 then 0 else log2Fuel fuel (n / 2) + 1

/-- Rounding of the exact value `(-1)^neg * n * 2^e`, where
`-1074 ≤ e ≤ 971`, to binary64: to nearest, ties to even. Below `2^53` the
mantissa fits and the value is exact; above, the low bits are rounded off, and
a result of magnitude `2^1024` or more overflows to an infinity. -/
def roundToBinary64 (neg : Bool) (n : Nat) (e : Int) : Float64 :=
  if n < 2 ^ 53 then
    .finite neg n e
  else
    let k := log2Fuel n n - 52
    let q := n / 2 ^ k
    let r := n % 2 ^ k
    let half := 2 ^ (k - 1)
    let m := if half < r ∨ (r = half ∧ q % 2 = 1) then q + 1 else q
    let m' := if m = 2 ^ 53 then 2 ^ 52 else m
    let e' := if m = 2 ^ 53 then e + k + 1 else e + k
    if 971 < e' then .inf neg else .finite neg m' e'

/-- The float64 nearest to an integer (exact below `2^53` in magnitude). -/
def ofInt (n : Int) : Float64 :=
  roundToBinary64 (decide (n < 0)) n.natAbs 0

/-- Go `x + y` on `float64` (IEEE-754 addition, round to nearest even). -/
def add : Float64 → Float64 → Float64
  | .nan, _ => .nan
  | _, .nan => .nan
  | .inf s, .inf t => if s = t then .inf s else .nan
  | .inf s, .finite _ _ _ => .inf s
  | .finite _ _ _, .inf t => .inf t
  | .finite s m e, .finite t n f =>
    let g := min e f
    let a : Int := (if s then -1 else 1) * ((m : Int) * 2 ^ (e - g).toNat)
    let b : Int := (if t then -1 else 1) * ((n : Int) * 2 ^ (f - g).toNat)
    let c := a + b
    if c = 0 then .finite (s && t) 0 g
    else roundToBinary64 (decide (c < 0)) c.natAbs g

/-- Go `math.Round`: the nearest integer, halves rounded away from zero;
`±0`, `±Inf` and NaN are returned unchanged. -/
def Round : Float64 → Float64
  | .finite s m e =>
    if 0 ≤ e then .finite s m e
    else .finite s ((m + 2 ^ ((-e).toNat - 1)) / 2 ^ (-e).toNat) 0
  | x => x

/-- Result of converting to `int64` a float that has no `int64` value (NaN, an
infinity, or a magnitude out of range). Go leaves it implementation-dependent;
this is what the amd64 conversion instruction yields. -/
def int64Indefinite : Int := -2 ^ 63

/-- Go conversion `int64(x)` of a `float64`: truncation toward zero. -/
def toInt64 : Float64 → Int
  | .finite s m e =>
    let t : Int := if 0 ≤ e then (m : Int) * 2 ^ e.toNat else (m : Int) / 2 ^ (-e).toNat
    let v := if s then -t else t
    if -2 ^ 63 ≤ v ∧ v < 2 ^ 63 then v else int64Indefinite
  | _ => int64Indefinite

end Float64

/-! ## The host framework, as far as the plugins read it -/

/-- A Go `map[string]V` read through the two-valued lookup `v, ok := m[k]`:
`none` is `ok = false`. The nil map is `fun _ => none`. -/
abbrev GoMap (V : Type) := String → Option V

/-- Go `m[k] = v`. -/
def GoMap.insert {V : Type} (m : GoMap V) (k : String) (v : V) : GoMap V :=
  fun k' => if k' = k then some v else m k'

/-- The empty map `make(map[string]V)`. -/
def GoMap.empty {V : Type} : GoMap V := fun _ => none

/-- A pod (`v1.Pod`), reduced to what `Score` reads: name and labels. -/
structure Pod where
  Name : String
  Labels : GoMap String

/-- The type `framework.PodInfo`. -/
structure PodInfo where
  Pod : Pod

/-- The type `framework.NodeInfo`, reduced to the pods assigned to the node. -/
structure NodeInfo where
  Pods : List PodInfo

/-- The framework handle, reduced to the one call chain the plugins make:
`handle.SnapshotSharedLister().NodeInfos().Get(nodeName)`, which returns the
node's info or an error. -/
structure Handle where
  Get : String → Except String NodeInfo

/-- A non-nil `*framework.Status`. The only one the plugins build has code
`framework.Error` and a message formatted from the node name and the lookup
error. The nil status (success) is `none : Option Status`. -/
inductive Status where
  | Error (nodeName : String) (err : String)
  deriving DecidableEq, Repr

/-- The type `framework.NodeScore`: a node name and its `int64` score. -/
structure NodeScore where
  Name : String
  Score : Int
  deriving DecidableEq, Repr

/-- Modelled from the spec: the constant `framework.MaxNodeScore` of the host
scheduler (the spec's `MAX_SCORE`, "a fixed positive integer defining the
host's scoring scale"), whose declaration is outside the repository; its
value is the `MAX_SCORE = 100` of the spec's scenario. -/
def MaxNodeScore : Int := 100

/-! ## The plugin `InterferenceBIO` (interferencebio.go) -/

/-- The plugin state: the framework handle and the coefficient table. -/
structure InterferenceBIO where
  handle : Handle
  metrics : GoMap Float64

namespace InterferenceBIO

/-- The method `Score`. The context, the cycle state and the pod being
scheduled are only logged, so they are left out; the result is the pair of the
`int64` score and the status (`none` for the nil status). -/
def Score (ib : InterferenceBIO) (nodeName : String) : Int × Option Status :=
  match ib.handle.Get nodeName with
  | .error err => (0, some (Status.Error nodeName err))
  | .ok nodeInfo =>
    let iscore := nodeInfo.Pods.foldl (fun iscore pi =>
      let p := pi.Pod
      match p.Labels "nextflow.io/taskName" with
      | none => iscore
      | some taskName =>
        let key := sanitizeTaskName taskName
        match ib.metrics key with
        | some metric => Float64.add iscore metric
        | none => iscore) Float64.zero
    let score := Float64.toInt64 (Float64.Round iscore)
    (score, none)

/-- First loop of `NormalizeScore`: the running maximum, started at the zero
value of `var higherScore int64`. -/
def higherScore (scores : List NodeScore) : Int :=
  scores.foldl (fun higherScore node =>
    if higherScore < node.Score then node.Score else higherScore) 0

/-- Second loop of `NormalizeScore`, run over the indices `0 .. n-1`: at index
`i` the element `node` is read and `scores[i].Score` is overwritten in place. -/
def rescale (higherScore : Int) (n : Nat) (scores : List NodeScore) : List NodeScore :=
  (List.range n).foldl (fun scores i =>
    match scores[i]? with
    | some node =>
      scores.set i { node with
        Score := int64Sub MaxNodeScore (int64Div (int64Mul node.Score MaxNodeScore) higherScore) }
    | none => scores) scores

/-- The method `NormalizeScore`: the list as it is left after the in-place
update, and the returned status (always nil). -/
def NormalizeScore (_ib : InterferenceBIO) (scores : List NodeScore) :
    List NodeScore × Option Status :=
  let higherScore := higherScore scores
  let scores := if higherScore > 0 then rescale higherScore scores.length scores else scores
  (scores, none)

end InterferenceBIO

/-! ## The plugin `InterferenceCPU` (interferencecpu.go) -/

/-- The plugin state: the framework handle and the coefficient table. -/
structure InterferenceCPU where
  handle : Handle
  metrics : GoMap Float64

namespace InterferenceCPU

/-- The method `Score` (same conventions as for `InterferenceBIO.Score`). -/
def Score (ic : InterferenceCPU) (nodeName : String) : Int × Option Status :=
  match ic.handle.Get nodeName with
  | .error err => (0, some (Status.Error nodeName err))
  | .ok nodeInfo =>
    let iscore := nodeInfo.Pods.foldl (fun iscore pi =>
      let p := pi.Pod
      match p.Labels "nextflow.io/taskName" with
      | none => iscore
      | some taskName =>
        let key := sanitizeTaskName taskName
        match ic.metrics key with
        | some metric => Float64.add iscore metric
        | none => iscore) Float64.zero
    let score := Float64.toInt64 (Float64.Round iscore)
    (score, none)

/-- First loop of `NormalizeScore`: the running maximum, started at zero. -/
def higherScore (scores : List NodeScore) : Int :=
  scores.foldl (fun higherScore node =>
    if higherScore < node.Score then node.Score else higherScore) 0

/-- Second loop of `NormalizeScore`: the in-place update, index by index. -/
def rescale (higherScore : Int) (n : Nat) (scores : List NodeScore) : List NodeScore :=
  (List.range n).foldl (fun scores i =>
    match scores[i]? with
    | some node =>
      scores.set i { node with
        Score := int64Sub MaxNodeScore (int64Div (int64Mul node.Score MaxNodeScore) higherScore) }
    | none => scores) scores

/-- The method `NormalizeScore`. -/
def NormalizeScore (_ic : InterferenceCPU) (scores : List NodeScore) :
    List NodeScore × Option Status :=
  let higherScore := higherScore scores
  let scores := if higherScore > 0 then rescale higherScore scores.length scores else scores
  (scores, none)

end InterferenceCPU

/-! ## The scenario of the specification -/

/-- A pod carrying the single label `nextflow.io/taskName = taskName`. -/
def labeledPod (name taskName : String) : PodInfo :=
  ⟨⟨name, GoMap.insert GoMap.empty "nextflow.io/taskName" taskName⟩⟩

/-- The snapshot of the scenario: node X hosts two labeled workloads, node Y
one, node Z none; any other node is unknown. -/
def scenarioHandle : Handle :=
  ⟨fun nodeName =>
    if nodeName = "X" then
      .ok ⟨[labeledPod "x1" "wf:step (A)", labeledPod "x2" "wf:step (B)"]⟩
    else if nodeName = "Y" then .ok ⟨[labeledPod "y1" "wf:step (A)"]⟩
    else if nodeName = "Z" then .ok ⟨[]⟩
    else .error "node not found"⟩

/-- The table of the scenario as the specification writes it. -/
def scenarioTable : GoMap Float64 :=
  (GoMap.empty.insert "wf.step.A" (Float64.ofInt 10)).insert "wf.step.B" (Float64.ofInt 4)

/-- The table of the scenario with the keys the sanitizer produces for the
two labels (each ends in the `.` that replaces the closing parenthesis). -/
def scenarioTableDotted : GoMap Float64 :=
  (GoMap.empty.insert "wf.step.A." (Float64.ofInt 10)).insert "wf.step.B." (Float64.ofInt 4)

/-- The BIO plugin over the scenario's snapshot and the table as written. -/
def scenarioBIOAsWritten : InterferenceBIO := ⟨scenarioHandle, scenarioTable⟩

/-- The BIO plugin over the scenario's snapshot and sanitized-key table. -/
def scenarioBIO : InterferenceBIO := ⟨scenarioHandle, scenarioTableDotted⟩

/-- The CPU plugin over the scenario's snapshot and sanitized-key table. -/
def scenarioCPU : InterferenceCPU := ⟨scenarioHandle, scenarioTableDotted⟩

/-- The raw scores of the scenario. -/
def scenarioScores : List NodeScore := [⟨"X", 14⟩, ⟨"Y", 10⟩, ⟨"Z", 0⟩]

/-- The raw scores of the scenario, listed in another order. -/
def scenarioScoresRotated : List NodeScore := [⟨"Z", 0⟩, ⟨"X", 14⟩, ⟨"Y", 10⟩]

/-- The rearrangement of positions that turns `scenarioScores` into
`scenarioScoresRotated`: position `j` of the latter holds position
`scenarioRotation j` of the former. -/
def scenarioRotation : Nat → Nat
  | 0 => 2
  | 1 => 0
  | 2 => 1
  | n => n

/-! ## Vocabulary of the normalization claims -/

/-- The specification's `maxRaw`: `m` is the maximum raw score of the list (it
is the score of some node and no node has a larger one). -/
def IsMaxRaw (scores : List NodeScore) (m : Int) : Prop :=
  (∃ node ∈ scores, node.Score = m) ∧ ∀ node ∈ scores, node.Score ≤ m

instance (scores : List NodeScore) (m : Int) : Decidable (IsMaxRaw scores m) := by
  unfold IsMaxRaw; infer_instance

/-- The specification's formula `MAX_SCORE - (raw * MAX_SCORE / maxRaw)` over
the mathematical integers, `/` being the quotient truncated toward zero. -/
def finalScore (maxRaw raw : Int) : Int :=
  MaxNodeScore - Int.tdiv (raw * MaxNodeScore) maxRaw

/-- No `int64` operation of the rescaling overflows on this list: every product
`raw * MAX_SCORE` lies in `(MAX_SCORE - 2^63, 2^63)`, which keeps the product,
the quotient and the subtraction from `MAX_SCORE` within the `int64` range. -/
def RescaleFits (scores : List NodeScore) : Prop :=
  ∀ node ∈ scores,
    MaxNodeScore - 2 ^ 63 < node.Score * MaxNodeScore ∧ node.Score * MaxNodeScore < 2 ^ 63

instance (scores : List NodeScore) : Decidable (RescaleFits scores) := by
  unfold RescaleFits; infer_instance

/-- What the second loop of `NormalizeScore` writes for one element, in
`int64` arithmetic. -/
def rescaleNode (higherScore : Int) (node : NodeScore) : NodeScore :=
  { node with
    Score := int64Sub MaxNodeScore (int64Div (int64Mul node.Score MaxNodeScore) higherScore) }

/-! ## The loader: `populateInterferenceMetrics` and `readInterferenceData` (util.go) -/

/-- The record `InterferenceData` of util.go. -/
structure InterferenceData where
  CPU : Float64
  LLC : Float64
  Mem : Float64
  Blk : Float64
  NetPR : Float64
  NetBW : Float64

/-- The kind of a directory entry, as `os.DirEntry.Type()` reports it: a
regular file, a directory, a symbolic link, or any other kind (named pipe,
socket, device). -/
inductive FileMode where
  | regular
  | directory
  | symlink
  | other
  deriving DecidableEq, Repr

/-- An `os.DirEntry`: its name and the kind of the entry itself (a symbolic
link is reported as a link, whatever it points to). -/
structure DirEntry where
  Name : String
  Mode : FileMode
  deriving DecidableEq, Repr

/-- The method `IsDir()` of an entry, the only test on its kind the loader makes. -/
def DirEntry.IsDir (e : DirEntry) : Bool :=
  e.Mode == FileMode.directory

/-- The entry is a regular file (`Type().IsRegular()`); the loader never asks. -/
def DirEntry.IsRegular (e : DirEntry) : Bool :=
  e.Mode == FileMode.regular

/-- The operating-system and library calls of the loader: `os.ReadDir`,
`filepath.Join`, `os.ReadFile` (a file content is a list of bytes) and
`json.Unmarshal` into an `InterferenceData`. An `Except.error` carries the Go
error returned by the call. -/
structure FileSystem where
  ReadDir : String → Except String (List DirEntry)
  Join : String → String → String
  ReadFile : String → Except String (List Nat)
  Unmarshal : List Nat → Except String InterferenceData

/-- The errors `populateInterferenceMetrics` builds with `fmt.Errorf`, one
constructor per format string. -/
inductive LoadError where
  | readingDirectory (err : String)
  | reading (name : String) (err : String)
  | unsupportedResource (resource : String)
  deriving DecidableEq, Repr

/-- The function `readInterferenceData`: read the file, then decode it; the
error of either step is returned as it is. -/
def readInterferenceData (fs : FileSystem) (filename : String) :
    Except String InterferenceData :=
  match fs.ReadFile filename with
  | .error err => .error err
  | .ok fileContent =>
    match fs.Unmarshal fileContent with
    | .error err => .error err
    | .ok data => .ok data

/-- The loop of `populateInterferenceMetrics` over the remaining entries, with
the map built so far. The result is the Go pair `(map, error)`: `none` in the
first component is the nil map, `none` in the second the nil error. -/
def populateLoop (fs : FileSystem) (dirPath resource : String) :
    List DirEntry → GoMap Float64 → Option (GoMap Float64) × Option LoadError
  | [], dataMap => (some dataMap, none)
  | e :: rest, dataMap =>
    if e.IsDir || e.Name == "..data" then
      populateLoop fs dirPath resource rest dataMap
    else
      let filePath := fs.Join dirPath e.Name
      match readInterferenceData fs filePath with
      | .error err => (none, some (LoadError.reading e.Name err))
      | .ok data =>
        if resource = "cpu" then
          populateLoop fs dirPath resource rest (dataMap.insert e.Name data.CPU)
        else if resource = "bio" then
          populateLoop fs dirPath resource rest (dataMap.insert e.Name data.Blk)
        else
          (none, some (LoadError.unsupportedResource resource))

/-- The function `populateInterferenceMetrics`. -/
def populateInterferenceMetrics (fs : FileSystem) (dirPath resource : String) :
    Option (GoMap Float64) × Option LoadError :=
  let dataMap : GoMap Float64 := GoMap.empty
  match fs.ReadDir dirPath with
  | .error err => (none, some (LoadError.readingDirectory err))
  | .ok entries => populateLoop fs dirPath resource entries dataMap

/-- The constructor `NewInterferenceBIO` (interferencebio.go): the plugin, or
nil and the load error. The field `metrics` receives the returned map; a nil
map reads as the empty map. -/
def NewInterferenceBIO (fs : FileSystem) (h : Handle) :
    Option InterferenceBIO × Option LoadError :=
  match populateInterferenceMetrics fs "/etc/interferencemetrics" "bio" with
  | (_, some err) => (none, some err)
  | (im, none) => (some { handle := h, metrics := im.getD GoMap.empty }, none)

/-- The constructor `NewInterferenceCPU` (interferencecpu.go). -/
def NewInterferenceCPU (fs : FileSystem) (h : Handle) :
    Option InterferenceCPU × Option LoadError :=
  match populateInterferenceMetrics fs "/etc/interferencemetrics" "cpu" with
  | (_, some err) => (none, some err)
  | (im, none) => (some { handle := h, metrics := im.getD GoMap.empty }, none)

/-- Go `delete(m, k)`. -/
def GoMap.erase {V : Type} (m : GoMap V) (k : String) : GoMap V :=
  fun k' => if k' = k then none else m k'

/-- An entry the loop skips: a directory, or the entry named `..data`. -/
def DirEntry.skipped (e : DirEntry) : Bool :=
  e.IsDir || e.Name == "..data"

/-- The field of a record that the resource kind selects: `cpu` selects the
CPU field, `bio` the block-I/O field. -/
def selectedField (resource : String) (data : InterferenceData) : Float64 :=
  if resource = "cpu" then data.CPU else data.Blk

/-! ## Sample file systems -/

/-- A record whose CPU and block-I/O fields are the given integers and whose
other fields are zero. -/
def sampleRecord (cpu blk : Int) : InterferenceData :=
  { CPU := Float64.ofInt cpu, LLC := Float64.zero, Mem := Float64.zero,
    Blk := Float64.ofInt blk, NetPR := Float64.zero, NetBW := Float64.zero }

/-- A file system whose every directory lists `entries`. The files `a`, `b`
and `wf:step (A)` of `/etc/interferencemetrics` hold the one-byte contents 1, 2
and 1, the file `bad` holds the byte 0, nothing else can be read; the contents
1 and 2 decode to records, any other content is rejected by the decoder. -/
def listingFS (entries : List DirEntry) : FileSystem :=
  { ReadDir := fun _ => .ok entries
    Join := fun dir name => dir ++ "/" ++ name
    ReadFile := fun path =>
      if path = "/etc/interferencemetrics/a" then .ok [1]
      else if path = "/etc/interferencemetrics/b" then .ok [2]
      else if path = "/etc/interferencemetrics/wf:step (A)" then .ok [1]
      else if path = "/etc/interferencemetrics/bad" then .ok [0]
      else .error "no such file or directory"
    Unmarshal := fun content =>
      if content = [1] then .ok (sampleRecord 10 4)
      else if content = [2] then .ok (sampleRecord 3 7)
      else .error "invalid character" }

/-- A directory without any data file: a subdirectory and the `..data` entry
(a symbolic link in a mounted volume). -/
def sentinelEntries : List DirEntry :=
  [⟨"sub", FileMode.directory⟩, ⟨"..data", FileMode.symlink⟩]

/-- A directory with two data files between skipped entries. -/
def sampleEntries : List DirEntry :=
  [⟨"..data", FileMode.symlink⟩, ⟨"a", FileMode.regular⟩, ⟨"sub", FileMode.directory⟩,
    ⟨"b", FileMode.regular⟩]

/-- A directory whose last file does not decode. -/
def brokenEntries : List DirEntry :=
  [⟨"a", FileMode.regular⟩, ⟨"b", FileMode.regular⟩, ⟨"bad", FileMode.regular⟩]

/-- A directory whose only entry is a symbolic link named `a` (reading it
yields the content of the file it points to). -/
def symlinkEntries : List DirEntry := [⟨"a", FileMode.symlink⟩]

/-! ## Vocabulary of the scoring claims -/

/-- The coefficient a workload contributes: the table entry under its
sanitized task-identity label, when the workload carries the label and the
sanitized label is a key of the table. -/
def coefficient (table : GoMap Float64) (pi : PodInfo) : Option Float64 :=
  match pi.Pod.Labels "nextflow.io/taskName" with
  | none => none
  | some taskName => table (sanitizeTaskName taskName)

/-- The specification's accumulator: the float64 sum, taken in workload order
from `0.0`, of the coefficients of exactly the contributing workloads. -/
def matchedSum (table : GoMap Float64) (pods : List PodInfo) : Float64 :=
  (pods.filterMap (coefficient table)).foldl Float64.add Float64.zero

/-- The integer `z` is an integer nearest to the value of the finite float `x`,
that is, within one half of it. The inequality `|z - x| ≤ 1/2` is stated after
multiplication by `2 * 2^k`, where `k` is the number of fractional bits. -/
def Float64.IsNearestInt : Float64 → Int → Prop
  | .finite s m e, z =>
    2 * (z * 2 ^ (-e).toNat - (if s then -1 else 1) * ((m : Int) * 2 ^ e.toNat)).natAbs
      ≤ 2 ^ (-e).toNat
  | .inf _, _ => False
  | .nan, _ => False

instance : (x : Float64) → (z : Int) → Decidable (Float64.IsNearestInt x z)
  | .finite s m e, z =>
    inferInstanceAs (Decidable
      (2 * (z * 2 ^ (-e).toNat - (if s then -1 else 1) * ((m : Int) * 2 ^ e.toNat)).natAbs
        ≤ 2 ^ (-e).toNat))
  | .inf _, _ => isFalse (fun h => h)
  | .nan, _ => isFalse (fun h => h)

/-- The value of a finite float without fractional bits, as an integer. -/
def Float64.intValue? : Float64 → Option Int
  | .finite s m e =>
    if 0 ≤ e then some ((if s then -1 else 1) * ((m : Int) * 2 ^ e.toNat)) else none
  | .inf _ => none
  | .nan => none

/-- An integer value is present and lies in the `int64` range. -/
def IsInt64Value : Option Int → Prop
  | some z => IsInt64 z
  | none => False

instance : (o : Option Int) → Decidable (IsInt64Value o)
  | some z => inferInstanceAs (Decidable (IsInt64 z))
  | none => isFalse (fun h => h)

/-- The float is finite and its rounding to an integer lies in the `int64`
range, so that the conversion `int64(math.Round(x))` is exact. -/
def Float64.RoundsIntoInt64 (x : Float64) : Prop :=
  IsInt64Value (Float64.Round x).intValue?

instance (x : Float64) : Decidable (Float64.RoundsIntoInt64 x) := by
  unfold Float64.RoundsIntoInt64; infer_instance

/-- The float is not negative: a finite value with a plus sign or a zero
mantissa, or plus infinity. -/
def Float64.IsNonneg : Float64 → Prop
  | .finite s m _ => s = false ∨ m = 0
  | .inf s => s = false
  | .nan => False

instance : (x : Float64) → Decidable (Float64.IsNonneg x)
  | .finite s m _ => inferInstanceAs (Decidable (s = false ∨ m = 0))
  | .inf s => inferInstanceAs (Decidable (s = false))
  | .nan => isFalse (fun h => h)

/-- A workload contributes to the score of a node. -/
def contributes (table : GoMap Float64) (pi : PodInfo) : Bool :=
  (coefficient table pi).isSome

/-- A snapshot in which every node hosts the given workloads. -/
def podsHandle (pods : List PodInfo) : Handle :=
  ⟨fun _ => .ok ⟨pods⟩⟩

/-- A pod without any label. -/
def unlabeledPod (name : String) : PodInfo :=
  ⟨⟨name, GoMap.empty⟩⟩

/-- A table with the single coefficient `10^19` under the key `big`. -/
def bigTable : GoMap Float64 :=
  GoMap.empty.insert "big" (Float64.ofInt 10000000000000000000)

/-- A table with the single coefficient `-5` under the key `neg`. -/
def negativeTable : GoMap Float64 :=
  GoMap.empty.insert "neg" (Float64.ofInt (-5))

/-- The table of the scenario with one more entry, under a key that is not in
canonical form. -/
def scenarioTableExtra : GoMap Float64 :=
  scenarioTableDotted.insert "wf:step (A)" (Float64.ofInt 7)

/-- The pods of node X of the scenario among workloads that do not contribute:
one without label and one whose sanitized label is not a key. -/
def scenarioPodsPadded : List PodInfo :=
  [unlabeledPod "u", labeledPod "x1" "wf:step (A)", labeledPod "q" "unknown task",
    labeledPod "x2" "wf:step (B)"]

/-! ## Properties of the sanitizer -/

/-- With a one-character pattern the scan replaces character by character. -/
theorem replaceAllFrom_single (a : Char) (new s : List Char) :
    replaceAllFrom [a] new 0 s = s.flatMap (fun c => if c = a then new else [c]) := by
  induction s with
  | nil => rfl
  | cons c cs ih =>
    by_cases h : c = a
    · subst h
      simp [replaceAllFrom, List.isPrefixOf, ih]
    · have h' : ¬ a = c := fun e => h e.symm
      simp [replaceAllFrom, List.isPrefixOf, ih, h, h']

/-- The same fact on strings. -/
theorem replaceAll_single (s old new : String) (a : Char) (h : old.data = [a]) :
    replaceAll s old new = ⟨s.data.flatMap (fun c => if c = a then new.data else [c])⟩ := by
  simp [replaceAll, h, replaceAllFrom_single]

/-- The four passes, composed on one character, are the transformation of the
specification. -/
theorem sanitizeChar_passes (c : Char) :
    ((((if c = ' ' then [] else [c] : List Char).flatMap
      (fun c => if c = ':' then ['.'] else [c])).flatMap
      (fun c => if c = '(' then ['.'] else [c])).flatMap
      (fun c => if c = ')' then ['.'] else [c])) = sanitizeChar c := by
  unfold sanitizeChar
  by_cases h1 : c = ' '
  · simp [h1]
  by_cases h2 : c = ':'
  · subst h2; simp
  by_cases h3 : c = '('
  · subst h3; simp
  by_cases h4 : c = ')'
  · subst h4; simp
  simp [h1, h2, h3, h4]

/-- The code of `sanitizeTaskName` computes the transformation of the specification. -/
theorem sanitizeTaskName_eq_spec (x : String) : sanitizeTaskName x = sanitizeSpec x := by
  unfold sanitizeTaskName sanitizeSpec
  simp only [replaceAll_single _ " " "" ' ' rfl, replaceAll_single _ ":" "." ':' rfl,
    replaceAll_single _ "(" "." '(' rfl, replaceAll_single _ ")" "." ')' rfl]
  congr 1
  induction x.data with
  | nil => rfl
  | cons c cs ih =>
    simp only [List.flatMap_cons, List.flatMap_append, ih]
    congr 1
    exact sanitizeChar_passes c

/-- Every character the transformation emits is one it leaves alone. -/
theorem sanitizeChar_fixed (c d : Char) (h : d ∈ sanitizeChar c) :
    d ≠ ' ' ∧ d ≠ ':' ∧ d ≠ '(' ∧ d ≠ ')' := by
  unfold sanitizeChar at h
  by_cases h1 : c = ' '
  · simp [h1] at h
  by_cases h2 : c = ':' ∨ c = '(' ∨ c = ')'
  · simp only [h1, h2, if_true, if_false, List.mem_singleton] at h
    subst h
    decide
  · simp only [h1, h2, if_false, List.mem_singleton] at h
    subst h
    exact ⟨h1, fun e => h2 (Or.inl e), fun e => h2 (Or.inr (Or.inl e)),
      fun e => h2 (Or.inr (Or.inr e))⟩

/-- A list without any of the four special characters is left unchanged. -/
theorem flatMap_sanitizeChar_of_clean (l : List Char)
    (h : ∀ d ∈ l, d ≠ ' ' ∧ d ≠ ':' ∧ d ≠ '(' ∧ d ≠ ')') :
    l.flatMap sanitizeChar = l := by
  induction l with
  | nil => rfl
  | cons d ds ih =>
    obtain ⟨h1, h2, h3, h4⟩ := h d (List.mem_cons_self d ds)
    have hd : sanitizeChar d = [d] := by simp [sanitizeChar, h1, h2, h3, h4]
    rw [List.flatMap_cons, hd, ih (fun e he => h e (List.mem_cons_of_mem d he))]
    rfl

/-- The output of the specified transformation has no special character. -/
theorem sanitizeSpec_clean (x : String) :
    ∀ d ∈ (sanitizeSpec x).data, d ≠ ' ' ∧ d ≠ ':' ∧ d ≠ '(' ∧ d ≠ ')' := by
  intro d hd
  simp only [sanitizeSpec, List.mem_flatMap] at hd
  obtain ⟨c, _, hc⟩ := hd
  exact sanitizeChar_fixed c d hc

/-! ## Claims about the sanitizer -/

/-- C2 (as the claim states it, refuted): `sanitizeTaskName` does not map
"RNA SEQ:align(v2)" to "RNA.SEQ.align.v2."; the space is deleted, not turned
into a dot. -/
theorem sanitize_example_space_not_dotted :
    sanitizeTaskName "RNA SEQ:align(v2)" ≠ "RNA.SEQ.align.v2." := by
  decide

/-- C2 (amended): `sanitizeTaskName` maps "RNA SEQ:align(v2)" to
"RNASEQ.align.v2." and maps "simple" to "simple". -/
theorem sanitize_examples :
    sanitizeTaskName "RNA SEQ:align(v2)" = "RNASEQ.align.v2." ∧
    sanitizeTaskName "simple" = "simple" := by
  decide

/-- C3: `sanitizeTaskName` is idempotent: sanitizing a sanitized string changes
nothing. -/
theorem sanitizeTaskName_idempotent (x : String) :
    sanitizeTaskName (sanitizeTaskName x) = sanitizeTaskName x := by
  rw [sanitizeTaskName_eq_spec (sanitizeTaskName x), sanitizeTaskName_eq_spec x]
  show (⟨(sanitizeSpec x).data.flatMap sanitizeChar⟩ : String) = sanitizeSpec x
  rw [flatMap_sanitizeChar_of_clean _ (sanitizeSpec_clean x)]

/-- C4: for every string, `sanitizeTaskName` (four `ReplaceAll` passes) equals
the character-by-character transformation that drops each space, turns each of
`:`, `(`, `)` into `.` and keeps every other character in order; and its
result contains none of the characters space, `:`, `(`, `)`. -/
theorem sanitizeTaskName_charwise (x : String) :
    sanitizeTaskName x = sanitizeSpec x ∧
    ∀ c ∈ (sanitizeTaskName x).data, c ≠ ' ' ∧ c ≠ ':' ∧ c ≠ '(' ∧ c ≠ ')' := by
  refine ⟨sanitizeTaskName_eq_spec x, ?_⟩
  rw [sanitizeTaskName_eq_spec x]
  exact sanitizeSpec_clean x

/-! ## Claims about the scenario -/

/-- C1 (as the claim states it, refuted): with the table keyed "wf.step.A" and
"wf.step.B", the labels "wf:step (A)" and "wf:step (B)" are sanitized to
"wf.step.A." and "wf.step.B.", which are not keys, so `Score` returns 0 (not
14 and 10) for the nodes X and Y. -/
theorem scenario_as_written_misses_table :
    sanitizeTaskName "wf:step (A)" = "wf.step.A." ∧
    sanitizeTaskName "wf:step (B)" = "wf.step.B." ∧
    scenarioBIOAsWritten.Score "X" = (0, none) ∧
    scenarioBIOAsWritten.Score "Y" = (0, none) ∧
    (scenarioBIOAsWritten.Score "X").1 ≠ 14 ∧
    (scenarioBIOAsWritten.Score "Y").1 ≠ 10 := by
  decide

/-- C1 (amended): with the table keyed "wf.step.A." and "wf.step.B." (the
sanitized labels), `Score` returns 14 for node X, 10 for node Y and 0 for node
Z, each with the nil status, and `NormalizeScore` applied to these three raw
scores leaves X = 0, Y = 29, Z = 100. -/
theorem scenario_with_sanitized_keys :
    scenarioBIO.Score "X" = (14, none) ∧
    scenarioBIO.Score "Y" = (10, none) ∧
    scenarioBIO.Score "Z" = (0, none) ∧
    scenarioBIO.NormalizeScore
      [⟨"X", ( scenarioBIO.Score "X").1⟩, ⟨"Y", ( scenarioBIO.Score "Y").1⟩,
       ⟨"Z", ( scenarioBIO.Score "Z").1⟩] =
      ([⟨"X", 0⟩, ⟨"Y", 29⟩, ⟨"Z", 100⟩], none) := by
  decide

/-! ## Properties of the normalization loops -/

/-- Inside the `int64` range the wrap-around is the identity. -/
theorem wrapInt64_of_fits (x : Int) (h1 : -2 ^ 63 ≤ x) (h2 : x < 2 ^ 63) : wrapInt64 x = x := by
  unfold wrapInt64
  omega

/-- Truncated division by a positive divisor is monotone. -/
theorem tdiv_mono (a b m : Int) (hm : 0 < m) (hab : a ≤ b) : Int.tdiv a m ≤ Int.tdiv b m := by
  rcases Int.lt_or_le a 0 with ha | ha
  · rcases Int.lt_or_le b 0 with hb | hb
    · have e1 : Int.tdiv a m = -((-a) / m) := by
        rw [← Int.tdiv_eq_ediv (by omega) (by omega), Int.neg_tdiv, Int.neg_neg]
      have e2 : Int.tdiv b m = -((-b) / m) := by
        rw [← Int.tdiv_eq_ediv (by omega) (by omega), Int.neg_tdiv, Int.neg_neg]
      have := Int.ediv_le_ediv hm (show -b ≤ -a by omega)
      omega
    · have e1 : Int.tdiv a m = -((-a) / m) := by
        rw [← Int.tdiv_eq_ediv (by omega) (by omega), Int.neg_tdiv, Int.neg_neg]
      have h1 : 0 ≤ (-a) / m := Int.ediv_nonneg (by omega) (by omega)
      have h2 : 0 ≤ Int.tdiv b m := Int.tdiv_nonneg hb (by omega)
      omega
  · rw [Int.tdiv_eq_ediv ha (by omega), Int.tdiv_eq_ediv (by omega) (by omega)]
    exact Int.ediv_le_ediv hm hab

/-- Truncated division by a positive divisor does not increase the magnitude. -/
theorem tdiv_between (a m : Int) (hm : 0 < m) :
    (0 ≤ a → 0 ≤ Int.tdiv a m ∧ Int.tdiv a m ≤ a) ∧
    (a ≤ 0 → a ≤ Int.tdiv a m ∧ Int.tdiv a m ≤ 0) := by
  constructor
  · intro ha
    rw [Int.tdiv_eq_ediv ha (by omega)]
    exact ⟨Int.ediv_nonneg ha (by omega), Int.ediv_le_self m ha⟩
  · intro ha
    have e1 : Int.tdiv a m = -((-a) / m) := by
      rw [← Int.tdiv_eq_ediv (by omega) (by omega), Int.neg_tdiv, Int.neg_neg]
    have h1 : 0 ≤ (-a) / m := Int.ediv_nonneg (by omega) (by omega)
    have h2 : (-a) / m ≤ -a := Int.ediv_le_self m (by omega)
    omega

/-- The running maximum of the first loop, from any starting value. -/
theorem foldl_higher_spec (scores : List NodeScore) (a : Int) :
    a ≤ scores.foldl (fun h node => if h < node.Score then node.Score else h) a ∧
    (∀ node ∈ scores,
      node.Score ≤ scores.foldl (fun h node => if h < node.Score then node.Score else h) a) ∧
    (scores.foldl (fun h node => if h < node.Score then node.Score else h) a = a ∨
      ∃ node ∈ scores,
        node.Score = scores.foldl (fun h node => if h < node.Score then node.Score else h) a) := by
  induction scores generalizing a with
  | nil => simp
  | cons x xs ih =>
    simp only [List.foldl_cons]
    obtain ⟨h1, h2, h3⟩ := ih (if a < x.Score then x.Score else a)
    by_cases hax : a < x.Score
    · simp only [hax, if_true] at h1 h2 h3 ⊢
      refine ⟨by omega, ?_, ?_⟩
      · intro node hn
        rcases List.mem_cons.1 hn with rfl | hn
        · exact h1
        · exact h2 node hn
      · rcases h3 with h3 | ⟨node, hn, e⟩
        · exact Or.inr ⟨x, List.mem_cons_self _ _, h3.symm⟩
        · exact Or.inr ⟨node, List.mem_cons_of_mem _ hn, e⟩
    · simp only [hax, if_false] at h1 h2 h3 ⊢
      refine ⟨h1, ?_, ?_⟩
      · intro node hn
        rcases List.mem_cons.1 hn with rfl | hn
        · omega
        · exact h2 node hn
      · rcases h3 with h3 | ⟨node, hn, e⟩
        · exact Or.inl h3
        · exact Or.inr ⟨node, List.mem_cons_of_mem _ hn, e⟩

/-- A positive maximum is what the first loop computes. -/
theorem higherScore_eq_of_isMaxRaw (scores : List NodeScore) (m : Int)
    (hmax : IsMaxRaw scores m) (hpos : 0 < m) : InterferenceBIO.higherScore scores = m := by
  obtain ⟨h1, h2, h3⟩ := foldl_higher_spec scores 0
  obtain ⟨⟨x, hx, ex⟩, hle⟩ := hmax
  have hx2 := h2 x hx
  unfold InterferenceBIO.higherScore
  rcases h3 with h3 | ⟨y, hy, ey⟩
  · omega
  · have := hle y hy
    omega

/-- Without a positive score the first loop ends at zero. -/
theorem higherScore_eq_zero (scores : List NodeScore) (h : ∀ node ∈ scores, node.Score ≤ 0) :
    InterferenceBIO.higherScore scores = 0 := by
  obtain ⟨h1, _, h3⟩ := foldl_higher_spec scores 0
  unfold InterferenceBIO.higherScore
  rcases h3 with h3 | ⟨y, hy, ey⟩
  · exact h3
  · have := h y hy
    omega

/-- The in-place loop, started behind an already processed prefix. -/
theorem rescale_loop (m : Int) (suf pre : List NodeScore) :
    (List.range' pre.length suf.length).foldl (fun scores i =>
      match scores[i]? with
      | some node =>
        scores.set i { node with
          Score := int64Sub MaxNodeScore (int64Div (int64Mul node.Score MaxNodeScore) m) }
      | none => scores) (pre ++ suf) = pre ++ suf.map (rescaleNode m) := by
  induction suf generalizing pre with
  | nil => simp
  | cons x xs ih =>
    have hget : (pre ++ x :: xs)[pre.length]? = some x := by
      rw [List.getElem?_append_right (Nat.le_refl _), Nat.sub_self, List.getElem?_cons_zero]
    have hset : ∀ y, (pre ++ x :: xs).set pre.length y = (pre ++ [y]) ++ xs := by
      intro y; simp
    simp only [List.length_cons, List.range'_succ, List.foldl_cons, hget, hset]
    have := ih (pre ++ [rescaleNode m x])
    simp only [List.length_append, List.length_singleton] at this
    rw [show rescaleNode m x = { x with Score := int64Sub MaxNodeScore (int64Div (int64Mul x.Score MaxNodeScore) m) } from rfl] at this
    rw [this]
    simp [rescaleNode]

/-- The second loop rewrites every element from its own raw score. -/
theorem rescale_eq_map (m : Int) (scores : List NodeScore) :
    InterferenceBIO.rescale m scores.length scores = scores.map (rescaleNode m) := by
  have := rescale_loop m scores []
  simpa [ InterferenceBIO.rescale, List.range_eq_range'] using this

/-- The method `NormalizeScore`, in closed form. -/
theorem normalizeScore_eq (ib : InterferenceBIO) (scores : List NodeScore) :
    ib.NormalizeScore scores =
      (if 0 < InterferenceBIO.higherScore scores then
        scores.map (rescaleNode ( InterferenceBIO.higherScore scores)) else scores, none) := by
  simp only [ InterferenceBIO.NormalizeScore, gt_iff_lt, rescale_eq_map]

/-- The two plugins normalize alike. -/
theorem cpu_normalizeScore_eq (ic : InterferenceCPU) (ib : InterferenceBIO)
    (scores : List NodeScore) : ic.NormalizeScore scores = ib.NormalizeScore scores := rfl

/-- When nothing overflows the element written is the formula of the specification. -/
theorem rescaleNode_of_fits (m : Int) (node : NodeScore) (hm : 0 < m)
    (h1 : MaxNodeScore - 2 ^ 63 < node.Score * MaxNodeScore)
    (h2 : node.Score * MaxNodeScore < 2 ^ 63) :
    rescaleNode m node = ⟨node.Name, finalScore m node.Score⟩ := by
  unfold rescaleNode finalScore int64Sub int64Div int64Mul
  unfold MaxNodeScore at *
  rw [wrapInt64_of_fits (node.Score * 100) (by omega) h2]
  obtain ⟨hp, hn⟩ := tdiv_between (node.Score * 100) m hm
  have hq : 100 - 2 ^ 63 < Int.tdiv (node.Score * 100) m ∧ Int.tdiv (node.Score * 100) m < 2 ^ 63 := by
    rcases Int.lt_or_le (node.Score * 100) 0 with h | h
    · have := hn (by omega); omega
    · have := hp h; omega
  rw [wrapInt64_of_fits _ (by omega) hq.2, wrapInt64_of_fits _ (by omega) (by omega)]

/-- The closed form of `NormalizeScore` as one map over the list. -/
theorem normalizeScore_eq_map (ib : InterferenceBIO) (scores : List NodeScore) :
    ib.NormalizeScore scores =
      (scores.map (fun node =>
        if 0 < InterferenceBIO.higherScore scores then
          rescaleNode ( InterferenceBIO.higherScore scores) node else node), none) := by
  rw [normalizeScore_eq]
  by_cases h : 0 < InterferenceBIO.higherScore scores
  · simp only [h, if_true]
  · simp only [h, if_false, List.map_id_fun', id_eq]

/-- The value of the first loop depends on the members of the list only. -/
theorem higherScore_congr (l1 l2 : List NodeScore) (h : ∀ node, node ∈ l1 ↔ node ∈ l2) :
    InterferenceBIO.higherScore l1 = InterferenceBIO.higherScore l2 := by
  obtain ⟨a1, a2, a3⟩ := foldl_higher_spec l1 0
  obtain ⟨b1, b2, b3⟩ := foldl_higher_spec l2 0
  unfold InterferenceBIO.higherScore
  apply Int.le_antisymm
  · rcases a3 with a3 | ⟨x, hx, ex⟩
    · omega
    · have := b2 x ((h x).1 hx)
      omega
  · rcases b3 with b3 | ⟨x, hx, ex⟩
    · omega
    · have := a2 x ((h x).2 hx)
      omega

/-- With a positive maximum and no overflow, `NormalizeScore` maps the formula
of the specification over the list. -/
theorem normalizeScore_of_fits (ib : InterferenceBIO) (scores : List NodeScore) (maxRaw : Int)
    (hmax : IsMaxRaw scores maxRaw) (hpos : 0 < maxRaw) (hfit : RescaleFits scores) :
    ib.NormalizeScore scores =
      (scores.map (fun node => ⟨node.Name, finalScore maxRaw node.Score⟩), none) := by
  rw [normalizeScore_eq, higherScore_eq_of_isMaxRaw scores maxRaw hmax hpos]
  simp only [hpos, if_true, Prod.mk.injEq, and_true]
  apply List.map_congr_left
  intro node hn
  exact rescaleNode_of_fits maxRaw node hpos (hfit node hn).1 (hfit node hn).2

/-! ## Claims about normalization -/

/-- C5 (as the claim states it, refuted): on the one-node list with raw score
`10^17`, whose maximum is positive, the product `raw * 100` wraps around in
`int64` and `NormalizeScore` leaves 184, whereas the formula
`MAX_SCORE - (raw * MAX_SCORE / maxRaw)` is 0. -/
theorem normalize_formula_fails_on_overflow :
    IsInt64 100000000000000000 ∧
    IsMaxRaw [⟨"n", 100000000000000000⟩] 100000000000000000 ∧
    ( scenarioBIO.NormalizeScore [⟨"n", 100000000000000000⟩]).1 = [⟨"n", 184⟩] ∧
    (scenarioCPU.NormalizeScore [⟨"n", 100000000000000000⟩]).1 = [⟨"n", 184⟩] ∧
    finalScore 100000000000000000 100000000000000000 = 0 := by
  decide

/-- C5 (amended): for every list of raw scores whose maximum `maxRaw` is
positive and on which no `int64` operation overflows, `NormalizeScore` (of
either plugin) replaces each node's score `raw` by
`MAX_SCORE - (raw * MAX_SCORE / maxRaw)`, with `MAX_SCORE = 100` and truncating
division, keeps the names and the order, and returns the nil status. -/
theorem normalizeScore_formula (ib : InterferenceBIO) (ic : InterferenceCPU)
    (scores : List NodeScore) (maxRaw : Int)
    (hmax : IsMaxRaw scores maxRaw) (hpos : 0 < maxRaw) (hfit : RescaleFits scores) :
    ib.NormalizeScore scores =
      (scores.map (fun node => ⟨node.Name, finalScore maxRaw node.Score⟩), none) ∧
    ic.NormalizeScore scores =
      (scores.map (fun node => ⟨node.Name, finalScore maxRaw node.Score⟩), none) ∧
    MaxNodeScore = 100 := by
  have key := normalizeScore_of_fits ib scores maxRaw hmax hpos hfit
  exact ⟨key, (cpu_normalizeScore_eq ic ib scores).trans key, rfl⟩

/-- C5 (witness): the amended claim on the list X = 14, Y = 10, Z = 0. -/
theorem normalizeScore_formula_witness :
    IsMaxRaw scenarioScores 14 ∧ (0 : Int) < 14 ∧ RescaleFits scenarioScores ∧
    ( scenarioBIO.NormalizeScore scenarioScores =
      (scenarioScores.map (fun node => ⟨node.Name, finalScore 14 node.Score⟩), none) ∧
    scenarioCPU.NormalizeScore scenarioScores =
      (scenarioScores.map (fun node => ⟨node.Name, finalScore 14 node.Score⟩), none) ∧
    MaxNodeScore = 100) :=
  ⟨by decide, by decide, by decide,
    normalizeScore_formula scenarioBIO scenarioCPU scenarioScores 14
      (by decide) (by decide) (by decide)⟩

/-- C6 (as the claim states it, refuted): on the list a = `10^17`, b = 0 the
maximum is `10^17 > 0`, yet the node whose raw score equals the maximum ends
with 184, not 0, because `maxRaw * 100` wraps around in `int64`. -/
theorem normalize_max_node_not_zero_on_overflow :
    IsInt64 100000000000000000 ∧
    IsMaxRaw [⟨"a", 100000000000000000⟩, ⟨"b", 0⟩] 100000000000000000 ∧
    ( scenarioBIO.NormalizeScore [⟨"a", 100000000000000000⟩, ⟨"b", 0⟩]).1 =
      [⟨"a", 184⟩, ⟨"b", 100⟩] := by
  decide

/-- C6 (amended): for every list of raw scores with `maxRaw > 0`, after
`NormalizeScore` every node whose raw score is 0 has final score `MAX_SCORE`,
and, when `maxRaw * MAX_SCORE` does not overflow `int64`, every node whose raw
score equals `maxRaw` has final score 0. -/
theorem normalizeScore_extremes (ib : InterferenceBIO) (scores : List NodeScore) (maxRaw : Int)
    (hmax : IsMaxRaw scores maxRaw) (hpos : 0 < maxRaw)
    (i : Nat) (node : NodeScore) (hi : scores[i]? = some node) :
    (maxRaw * MaxNodeScore < 2 ^ 63 → node.Score = maxRaw →
      (ib.NormalizeScore scores).1[i]? = some ⟨node.Name, 0⟩) ∧
    (node.Score = 0 →
      (ib.NormalizeScore scores).1[i]? = some ⟨node.Name, MaxNodeScore⟩) := by
  have hN : (ib.NormalizeScore scores).1[i]? = some (rescaleNode maxRaw node) := by
    rw [normalizeScore_eq, higherScore_eq_of_isMaxRaw scores maxRaw hmax hpos]
    simp only [hpos, if_true, List.getElem?_map, hi, Option.map_some']
  rw [hN]
  constructor
  · intro hfit hnode
    have h1 : MaxNodeScore - 2 ^ 63 < node.Score * MaxNodeScore := by
      rw [hnode]; unfold MaxNodeScore; omega
    have h2 : node.Score * MaxNodeScore < 2 ^ 63 := by rw [hnode]; exact hfit
    rw [rescaleNode_of_fits maxRaw node hpos h1 h2, hnode]
    unfold finalScore
    rw [Int.mul_tdiv_cancel_left _ (by omega)]
    simp
  · intro hnode
    simp [rescaleNode, hnode, int64Mul, int64Div, int64Sub, wrapInt64, MaxNodeScore]

/-- C6 (witness): the amended claim on the scenario list, at node X (raw 14,
the maximum) and at node Z (raw 0). -/
theorem normalizeScore_extremes_witness :
    (IsMaxRaw scenarioScores 14 ∧ (0 : Int) < 14 ∧ (14 : Int) * MaxNodeScore < 2 ^ 63) ∧
    ( scenarioBIO.NormalizeScore scenarioScores).1[0]? = some ⟨"X", 0⟩ ∧
    ( scenarioBIO.NormalizeScore scenarioScores).1[2]? = some ⟨"Z", MaxNodeScore⟩ :=
  ⟨by decide,
    (normalizeScore_extremes scenarioBIO scenarioScores 14 (by decide) (by decide)
      0 ⟨"X", 14⟩ (by decide)).1 (by decide) rfl,
    (normalizeScore_extremes scenarioBIO scenarioScores 14 (by decide) (by decide)
      2 ⟨"Z", 0⟩ (by decide)).2 rfl⟩

/-- C7: for every list of raw scores in which no score is positive (the empty
list included), `NormalizeScore` (of either plugin) leaves the list unchanged
and returns the nil status, that is, success. -/
theorem normalizeScore_unchanged (ib : InterferenceBIO) (ic : InterferenceCPU)
    (scores : List NodeScore) (h : ∀ node ∈ scores, node.Score ≤ 0) :
    ib.NormalizeScore scores = (scores, none) ∧ ic.NormalizeScore scores = (scores, none) := by
  have key : ib.NormalizeScore scores = (scores, none) := by
    rw [normalizeScore_eq, higherScore_eq_zero scores h]
    simp
  exact ⟨key, (cpu_normalizeScore_eq ic ib scores).trans key⟩

/-- C7 (witness): the claim on the empty list and on the list a = 0, b = -3. -/
theorem normalizeScore_unchanged_witness :
    ( scenarioBIO.NormalizeScore [] = ([], none) ∧
      scenarioCPU.NormalizeScore [] = ([], none)) ∧
    (∀ node ∈ ([⟨"a", 0⟩, ⟨"b", -3⟩] : List NodeScore), node.Score ≤ 0) ∧
    ( scenarioBIO.NormalizeScore [⟨"a", 0⟩, ⟨"b", -3⟩] = ([⟨"a", 0⟩, ⟨"b", -3⟩], none) ∧
      scenarioCPU.NormalizeScore [⟨"a", 0⟩, ⟨"b", -3⟩] = ([⟨"a", 0⟩, ⟨"b", -3⟩], none)) :=
  ⟨normalizeScore_unchanged scenarioBIO scenarioCPU [] (by decide), by decide,
    normalizeScore_unchanged scenarioBIO scenarioCPU [⟨"a", 0⟩, ⟨"b", -3⟩] (by decide)⟩

/-- C8 (as the claim states it, refuted): final scores leave the range
`0 .. MAX_SCORE`. A negative raw score beside a positive maximum ends above
`MAX_SCORE` (150); a list without positive score is left as it is, negative
scores included (-5); and a wrapped product ends out of range too (184). -/
theorem normalize_out_of_range :
    ( scenarioBIO.NormalizeScore [⟨"a", -5⟩, ⟨"b", 10⟩]).1 = [⟨"a", 150⟩, ⟨"b", 0⟩] ∧
    ¬ (150 : Int) ≤ MaxNodeScore ∧
    ( scenarioBIO.NormalizeScore [⟨"a", -5⟩]).1 = [⟨"a", -5⟩] ∧
    ( scenarioBIO.NormalizeScore [⟨"a", 100000000000000000⟩]).1 = [⟨"a", 184⟩] ∧
    IsInt64 100000000000000000 := by
  decide

/-- C8 (amended): for every list of raw scores that are all non-negative and
whose products `raw * MAX_SCORE` do not overflow `int64`, after
`NormalizeScore` every node's final score lies in `0 .. MAX_SCORE`. -/
theorem normalizeScore_in_range (ib : InterferenceBIO) (scores : List NodeScore)
    (h : ∀ node ∈ scores, 0 ≤ node.Score ∧ node.Score * MaxNodeScore < 2 ^ 63) :
    ∀ node ∈ (ib.NormalizeScore scores).1, 0 ≤ node.Score ∧ node.Score ≤ MaxNodeScore := by
  obtain ⟨_, hle, _⟩ := foldl_higher_spec scores 0
  rw [normalizeScore_eq]
  by_cases hpos : 0 < InterferenceBIO.higherScore scores
  · simp only [hpos, if_true, List.mem_map]
    rintro node ⟨raw, hraw, rfl⟩
    obtain ⟨h0, hfit⟩ := h raw hraw
    have hm : raw.Score ≤ InterferenceBIO.higherScore scores := hle raw hraw
    have h1 : MaxNodeScore - 2 ^ 63 < raw.Score * MaxNodeScore := by
      unfold MaxNodeScore; omega
    rw [rescaleNode_of_fits _ raw hpos h1 hfit]
    show 0 ≤ finalScore _ raw.Score ∧ finalScore _ raw.Score ≤ MaxNodeScore
    unfold finalScore
    have hq0 : 0 ≤ Int.tdiv (raw.Score * MaxNodeScore) ( InterferenceBIO.higherScore scores) :=
      Int.tdiv_nonneg (by unfold MaxNodeScore; omega) (by omega)
    have hq1 : Int.tdiv (raw.Score * MaxNodeScore) ( InterferenceBIO.higherScore scores)
        ≤ MaxNodeScore := by
      have hmono := tdiv_mono (raw.Score * MaxNodeScore)
        ( InterferenceBIO.higherScore scores * MaxNodeScore)
        ( InterferenceBIO.higherScore scores) hpos (by unfold MaxNodeScore; omega)
      rwa [Int.mul_tdiv_cancel_left _ (by omega)] at hmono
    omega
  · simp only [hpos, if_false]
    intro node hnode
    have h0 := (h node hnode).1
    have hm : node.Score ≤ InterferenceBIO.higherScore scores := hle node hnode
    unfold MaxNodeScore
    omega

/-- C8 (witness): the amended claim on the scenario list. -/
theorem normalizeScore_in_range_witness :
    (∀ node ∈ scenarioScores, 0 ≤ node.Score ∧ node.Score * MaxNodeScore < 2 ^ 63) ∧
    ∀ node ∈ ( scenarioBIO.NormalizeScore scenarioScores).1,
      0 ≤ node.Score ∧ node.Score ≤ MaxNodeScore :=
  ⟨by decide, normalizeScore_in_range scenarioBIO scenarioScores (by decide)⟩

/-- C9 (as the claim states it, refuted): on a list without positive score the
order is kept, not inverted (raw -5 < -3 and final -5 < -3); and when a
product wraps around in `int64` the node of higher raw score can end higher
(raw 1 < 10^17 and final 100 < 184). -/
theorem normalize_order_not_inverted :
    ( scenarioBIO.NormalizeScore [⟨"a", -5⟩, ⟨"b", -3⟩]).1 = [⟨"a", -5⟩, ⟨"b", -3⟩] ∧
    ( scenarioBIO.NormalizeScore [⟨"a", 1⟩, ⟨"b", 100000000000000000⟩]).1 =
      [⟨"a", 100⟩, ⟨"b", 184⟩] ∧
    IsInt64 100000000000000000 := by
  decide

/-- C9 (amended): for every list of raw scores whose maximum is positive and on
which no `int64` operation overflows, and every two nodes `i` and `j` in it,
if `raw_i < raw_j` then after `NormalizeScore` `final_i ≥ final_j`. -/
theorem normalizeScore_inverts_order (ib : InterferenceBIO) (scores : List NodeScore)
    (maxRaw : Int) (hmax : IsMaxRaw scores maxRaw) (hpos : 0 < maxRaw)
    (hfit : RescaleFits scores) (i j : Nat) (a b : NodeScore)
    (hi : scores[i]? = some a) (hj : scores[j]? = some b) (hlt : a.Score < b.Score) :
    ∃ fa fb, (ib.NormalizeScore scores).1[i]? = some fa ∧
      (ib.NormalizeScore scores).1[j]? = some fb ∧
      fa.Name = a.Name ∧ fb.Name = b.Name ∧ fb.Score ≤ fa.Score := by
  refine ⟨⟨a.Name, finalScore maxRaw a.Score⟩, ⟨b.Name, finalScore maxRaw b.Score⟩, ?_, ?_,
    rfl, rfl, ?_⟩
  · rw [normalizeScore_of_fits ib scores maxRaw hmax hpos hfit]
    simp only [List.getElem?_map, hi, Option.map_some']
  · rw [normalizeScore_of_fits ib scores maxRaw hmax hpos hfit]
    simp only [List.getElem?_map, hj, Option.map_some']
  · show finalScore maxRaw b.Score ≤ finalScore maxRaw a.Score
    unfold finalScore
    have := tdiv_mono (a.Score * MaxNodeScore) (b.Score * MaxNodeScore) maxRaw hpos
      (by unfold MaxNodeScore; omega)
    omega

/-- C9 (witness): the amended claim on the scenario list, for the nodes Y
(raw 10) and X (raw 14). -/
theorem normalizeScore_inverts_order_witness :
    (IsMaxRaw scenarioScores 14 ∧ (0 : Int) < 14 ∧ RescaleFits scenarioScores ∧
      scenarioScores[1]? = some ⟨"Y", 10⟩ ∧ scenarioScores[0]? = some ⟨"X", 14⟩ ∧
      (10 : Int) < 14) ∧
    ∃ fa fb, ( scenarioBIO.NormalizeScore scenarioScores).1[1]? = some fa ∧
      ( scenarioBIO.NormalizeScore scenarioScores).1[0]? = some fb ∧
      fa.Name = "Y" ∧ fb.Name = "X" ∧ fb.Score ≤ fa.Score :=
  ⟨by decide,
    normalizeScore_inverts_order scenarioBIO scenarioScores 14 (by decide) (by decide)
      (by decide) 1 0 ⟨"Y", 10⟩ ⟨"X", 14⟩ (by decide) (by decide) (by decide)⟩

/-- C10: `NormalizeScore` commutes with permutation. If `l2` is a permutation of
`l1`, position `j` of `l2` holding the (node, raw score) pair at position `p j`
of `l1`, then the normalized `l2` is the normalized `l1` rearranged by the same
`p`: each node's final score does not depend on its position. In particular
the two normalized lists are permutations of each other. -/
theorem normalizeScore_perm (ib : InterferenceBIO) (l1 l2 : List NodeScore) (p : Nat → Nat)
    (hperm : l2.Perm l1) (hp : ∀ j, l2[j]? = l1[p j]?) :
    (∀ j, (ib.NormalizeScore l2).1[j]? = (ib.NormalizeScore l1).1[p j]?) ∧
    (ib.NormalizeScore l2).1.Perm (ib.NormalizeScore l1).1 ∧
    (ib.NormalizeScore l2).2 = (ib.NormalizeScore l1).2 := by
  have hh : InterferenceBIO.higherScore l2 = InterferenceBIO.higherScore l1 :=
    higherScore_congr l2 l1 (fun node => hperm.mem_iff)
  rw [normalizeScore_eq_map ib l2, normalizeScore_eq_map ib l1, hh]
  refine ⟨?_, hperm.map _, rfl⟩
  intro j
  simp only [List.getElem?_map, hp j]

/-- C10 (witness): the claim on the scenario list and its rotation Z, X, Y. -/
theorem normalizeScore_perm_witness :
    (scenarioScoresRotated.Perm scenarioScores ∧
      ∀ j, scenarioScoresRotated[j]? = scenarioScores[scenarioRotation j]?) ∧
    ((∀ j, ( scenarioBIO.NormalizeScore scenarioScoresRotated).1[j]? =
        ( scenarioBIO.NormalizeScore scenarioScores).1[scenarioRotation j]?) ∧
      ( scenarioBIO.NormalizeScore scenarioScoresRotated).1.Perm
        ( scenarioBIO.NormalizeScore scenarioScores).1 ∧
      ( scenarioBIO.NormalizeScore scenarioScoresRotated).2 =
        ( scenarioBIO.NormalizeScore scenarioScores).2) :=
  have hperm : scenarioScoresRotated.Perm scenarioScores := by decide
  have hp : ∀ j, scenarioScoresRotated[j]? = scenarioScores[scenarioRotation j]? := by
    intro j
    match j with
    | 0 => rfl
    | 1 => rfl
    | 2 => rfl
    | n + 3 => rfl
  ⟨⟨hperm, hp⟩, normalizeScore_perm scenarioBIO scenarioScores scenarioScoresRotated
    scenarioRotation hperm hp⟩

/-! ## Properties of the loader -/

/-- The loop never looks at a skipped entry. -/
theorem populateLoop_filter (fs : FileSystem) (dirPath resource : String)
    (entries : List DirEntry) (dataMap : GoMap Float64) :
    populateLoop fs dirPath resource entries dataMap =
      populateLoop fs dirPath resource (entries.filter (fun e => !e.skipped)) dataMap := by
  induction entries generalizing dataMap with
  | nil => rfl
  | cons e rest ih =>
    by_cases hs : e.skipped = true
    · have hs' : (e.IsDir || e.Name == "..data") = true := hs
      rw [List.filter_cons_of_neg (by simp [hs])]
      rw [populateLoop, if_pos hs']
      exact ih dataMap
    · have hs' : ¬ (e.IsDir || e.Name == "..data") = true := hs
      rw [List.filter_cons_of_pos (by simp [hs])]
      rw [populateLoop, populateLoop, if_neg hs', if_neg hs']
      simp only
      split
      · rfl
      · split
        · exact ih _
        · split
          · exact ih _
          · rfl

/-- Over skipped entries only, the loop returns the map it started with. -/
theorem populateLoop_all_skipped (fs : FileSystem) (dirPath resource : String)
    (entries : List DirEntry) (dataMap : GoMap Float64)
    (h : ∀ e ∈ entries, e.skipped = true) :
    populateLoop fs dirPath resource entries dataMap = (some dataMap, none) := by
  rw [populateLoop_filter]
  have : entries.filter (fun e => !e.skipped) = [] := by
    rw [List.filter_eq_nil_iff]
    intro e he
    simp [h e he]
  rw [this]
  rfl

/-- The loop ends either with a map and no error or with an error and no map. -/
theorem populateLoop_result (fs : FileSystem) (dirPath resource : String)
    (entries : List DirEntry) (dataMap : GoMap Float64) :
    (∃ t, populateLoop fs dirPath resource entries dataMap = (some t, none)) ∨
    (∃ err, populateLoop fs dirPath resource entries dataMap = (none, some err)) := by
  induction entries generalizing dataMap with
  | nil => exact Or.inl ⟨dataMap, rfl⟩
  | cons e rest ih =>
    rw [populateLoop]
    split
    · exact ih dataMap
    · simp only
      split
      · exact Or.inr ⟨_, rfl⟩
      · split
        · exact ih _
        · split
          · exact ih _
          · exact Or.inr ⟨_, rfl⟩

/-- A data file that cannot be read or decoded makes the loop fail. -/
theorem populateLoop_fails (fs : FileSystem) (dirPath resource : String)
    (entries : List DirEntry) (dataMap : GoMap Float64)
    (h : ∃ e ∈ entries, e.skipped = false ∧
      ∃ err, readInterferenceData fs (fs.Join dirPath e.Name) = .error err) :
    ∃ err, populateLoop fs dirPath resource entries dataMap = (none, some err) := by
  induction entries generalizing dataMap with
  | nil => obtain ⟨e, he, _⟩ := h; cases he
  | cons e rest ih =>
    obtain ⟨x, hx, hxs, err, hxe⟩ := h
    rw [populateLoop]
    by_cases hs : (e.IsDir || e.Name == "..data") = true
    · rw [if_pos hs]
      rcases List.mem_cons.1 hx with rfl | hx
      · have : x.skipped = true := hs
        rw [this] at hxs; cases hxs
      · exact ih dataMap ⟨x, hx, hxs, err, hxe⟩
    · rw [if_neg hs]
      simp only
      rcases List.mem_cons.1 hx with rfl | hx
      · rw [hxe]
        exact ⟨_, rfl⟩
      · split
        · exact ⟨_, rfl⟩
        · split
          · exact ih _ ⟨x, hx, hxs, err, hxe⟩
          · split
            · exact ih _ ⟨x, hx, hxs, err, hxe⟩
            · exact ⟨_, rfl⟩

/-- What a successful run of the loop leaves in the map: under the name of every
data file the selected field of its decoded record, and elsewhere what the
map held before. -/
theorem populateLoop_ok_spec (fs : FileSystem) (dirPath resource : String)
    (hres : resource = "cpu" ∨ resource = "bio")
    (entries : List DirEntry) (dataMap t : GoMap Float64)
    (hok : populateLoop fs dirPath resource entries dataMap = (some t, none)) (k : String) :
    ((∃ e ∈ entries, e.skipped = false ∧ e.Name = k) →
      ∃ data, readInterferenceData fs (fs.Join dirPath k) = .ok data ∧
        t k = some (selectedField resource data)) ∧
    ((¬ ∃ e ∈ entries, e.skipped = false ∧ e.Name = k) → t k = dataMap k) := by
  induction entries generalizing dataMap with
  | nil =>
    simp only [populateLoop, Prod.mk.injEq, Option.some.injEq, and_true] at hok
    subst hok
    simp
  | cons e rest ih =>
    rw [populateLoop] at hok
    by_cases hs : (e.IsDir || e.Name == "..data") = true
    · rw [if_pos hs] at hok
      have hsk : e.skipped = true := hs
      obtain ⟨h1, h2⟩ := ih dataMap hok
      constructor
      · rintro ⟨x, hx, hxs, hxn⟩
        rcases List.mem_cons.1 hx with rfl | hx
        · rw [hsk] at hxs; cases hxs
        · exact h1 ⟨x, hx, hxs, hxn⟩
      · intro hno
        exact h2 (fun ⟨x, hx, hxs, hxn⟩ => hno ⟨x, List.mem_cons_of_mem _ hx, hxs, hxn⟩)
    · rw [if_neg hs] at hok
      have hsk : e.skipped = false := by
        simpa [DirEntry.skipped] using hs
      simp only at hok
      cases hread : readInterferenceData fs (fs.Join dirPath e.Name) with
      | error err => rw [hread] at hok; simp at hok
      | ok data =>
        rw [hread] at hok
        simp only at hok
        have hsel : populateLoop fs dirPath resource rest
            (dataMap.insert e.Name (selectedField resource data)) = (some t, none) := by
          rcases hres with hc | hb
          · rw [if_pos hc] at hok
            simpa [selectedField, hc] using hok
          · have hc : ¬ resource = "cpu" := by rw [hb]; decide
            rw [if_neg hc, if_pos hb] at hok
            simpa [selectedField, hc] using hok
        obtain ⟨h1, h2⟩ := ih _ hsel
        by_cases hrest : ∃ x ∈ rest, x.skipped = false ∧ x.Name = k
        · exact ⟨fun _ => h1 hrest, fun hno =>
            absurd (hrest.elim fun x hx => ⟨x, List.mem_cons_of_mem _ hx.1, hx.2⟩) hno⟩
        · have ht := h2 hrest
          by_cases hk : k = e.Name
          · constructor
            · intro _
              refine ⟨data, by rw [hk]; exact hread, ?_⟩
              rw [ht]
              simp [GoMap.insert, hk]
            · intro hno
              exact absurd ⟨e, List.mem_cons_self _ _, hsk, hk.symm⟩ hno
          · constructor
            · rintro ⟨x, hx, hxs, hxn⟩
              rcases List.mem_cons.1 hx with rfl | hx
              · exact absurd hxn.symm hk
              · exact absurd ⟨x, hx, hxs, hxn⟩ hrest
            · intro _
              rw [ht]
              simp [GoMap.insert, hk]

/-- An entry is processed exactly when it is neither a directory nor `..data`. -/
theorem skipped_eq_false_iff (e : DirEntry) :
    e.skipped = false ↔ e.IsDir = false ∧ e.Name ≠ "..data" := by
  simp [DirEntry.skipped]

/-- After a successful listing the loader is the loop started on the empty map. -/
theorem populate_eq_loop (fs : FileSystem) (dirPath resource : String) (entries : List DirEntry)
    (hdir : fs.ReadDir dirPath = .ok entries) :
    populateInterferenceMetrics fs dirPath resource =
      populateLoop fs dirPath resource entries GoMap.empty := by
  simp only [populateInterferenceMetrics, hdir]

/-- With a resource other than "cpu" and "bio", a listing that holds a data
file makes the loop fail: on the first data file, either its read fails or the
resource is refused. -/
theorem populateLoop_unsupported (fs : FileSystem) (dirPath resource : String)
    (hcpu : resource ≠ "cpu") (hbio : resource ≠ "bio")
    (entries : List DirEntry) (dataMap : GoMap Float64)
    (hdata : ∃ e ∈ entries, e.skipped = false) :
    ∃ err, populateLoop fs dirPath resource entries dataMap = (none, some err) ∧
      (err = LoadError.unsupportedResource resource ∨
        ∃ name msg, err = LoadError.reading name msg) := by
  induction entries generalizing dataMap with
  | nil => obtain ⟨e, he, _⟩ := hdata; cases he
  | cons e rest ih =>
    rw [populateLoop]
    by_cases hs : (e.IsDir || e.Name == "..data") = true
    · rw [if_pos hs]
      obtain ⟨x, hx, hxs⟩ := hdata
      rcases List.mem_cons.1 hx with rfl | hx
      · have : x.skipped = true := hs
        rw [this] at hxs; cases hxs
      · exact ih dataMap ⟨x, hx, hxs⟩
    · rw [if_neg hs]
      simp only
      cases readInterferenceData fs (fs.Join dirPath e.Name) with
      | error err => exact ⟨_, rfl, Or.inr ⟨_, _, rfl⟩⟩
      | ok data =>
        simp only [if_neg hcpu, if_neg hbio]
        exact ⟨_, rfl, Or.inl rfl⟩

/-- With resource "cpu" or "bio", the loop succeeds as soon as every data file
reads and decodes. -/
theorem populateLoop_succeeds (fs : FileSystem) (dirPath resource : String)
    (hres : resource = "cpu" ∨ resource = "bio")
    (entries : List DirEntry) (dataMap : GoMap Float64)
    (hall : ∀ e ∈ entries, e.skipped = false →
      ∃ data, readInterferenceData fs (fs.Join dirPath e.Name) = .ok data) :
    ∃ t, populateLoop fs dirPath resource entries dataMap = (some t, none) := by
  induction entries generalizing dataMap with
  | nil => exact ⟨dataMap, rfl⟩
  | cons e rest ih =>
    have hrest : ∀ x ∈ rest, x.skipped = false →
        ∃ data, readInterferenceData fs (fs.Join dirPath x.Name) = .ok data :=
      fun x hx => hall x (List.mem_cons_of_mem _ hx)
    rw [populateLoop]
    by_cases hs : (e.IsDir || e.Name == "..data") = true
    · rw [if_pos hs]
      exact ih dataMap hrest
    · rw [if_neg hs]
      have hsk : e.skipped = false := by simpa [DirEntry.skipped] using hs
      obtain ⟨data, hdata⟩ := hall e (List.mem_cons_self _ _) hsk
      simp only [hdata]
      rcases hres with hc | hb
      · rw [if_pos hc]
        exact ih _ hrest
      · have hc : ¬ resource = "cpu" := by rw [hb]; decide
        rw [if_neg hc, if_pos hb]
        exact ih _ hrest

/-- The loop consults the file system for file contents only, never for the
listing. -/
theorem populateLoop_listing_irrelevant (fs : FileSystem)
    (readDir : String → Except String (List DirEntry)) (dirPath resource : String)
    (entries : List DirEntry) (dataMap : GoMap Float64) :
    populateLoop { fs with ReadDir := readDir } dirPath resource entries dataMap =
      populateLoop fs dirPath resource entries dataMap := by
  induction entries generalizing dataMap with
  | nil => rfl
  | cons e rest ih =>
    rw [populateLoop, populateLoop]
    have hread : readInterferenceData { fs with ReadDir := readDir } (fs.Join dirPath e.Name) =
        readInterferenceData fs (fs.Join dirPath e.Name) := rfl
    simp only [hread, ih]

/-! ## Claims about the loader -/

/-- C11 (as the claim states it, refuted): with the unsupported resource "mem",
a directory without entries, or with a subdirectory and `..data` only, is
loaded without error into an empty table; the resource is rejected only once a
data file has been read. -/
theorem unsupported_resource_accepted_without_data_file :
    populateInterferenceMetrics (listingFS []) "/etc/interferencemetrics" "mem" =
      (some GoMap.empty, none) ∧
    populateInterferenceMetrics (listingFS sentinelEntries) "/etc/interferencemetrics" "mem" =
      (some GoMap.empty, none) ∧
    populateInterferenceMetrics (listingFS sampleEntries) "/etc/interferencemetrics" "mem" =
      (none, some (LoadError.unsupportedResource "mem")) := by
  exact ⟨rfl, rfl, rfl⟩

/-- C11 (amended): `populateInterferenceMetrics` rejects every unsupported
resource kind on a directory that holds a data file. For every listing with at
least one entry that is neither a directory nor named `..data`, and every
resource string other than "cpu" and "bio", the load returns an error and the
nil table; the error is the refusal of the resource, or the failure to read
the first data file. -/
theorem populate_rejects_unsupported_resource (fs : FileSystem) (dirPath resource : String)
    (entries : List DirEntry) (hdir : fs.ReadDir dirPath = .ok entries)
    (hcpu : resource ≠ "cpu") (hbio : resource ≠ "bio")
    (hdata : ∃ e ∈ entries, e.IsDir = false ∧ e.Name ≠ "..data") :
    ∃ err, populateInterferenceMetrics fs dirPath resource = (none, some err) ∧
      (err = LoadError.unsupportedResource resource ∨
        ∃ name msg, err = LoadError.reading name msg) := by
  rw [populate_eq_loop fs dirPath resource entries hdir]
  obtain ⟨e, he, hd, hn⟩ := hdata
  exact populateLoop_unsupported fs dirPath resource hcpu hbio entries GoMap.empty
    ⟨e, he, (skipped_eq_false_iff e).2 ⟨hd, hn⟩⟩

/-- C11 (witness): the amended claim on the directory `..data`, `a`, `sub/`,
`b` with the resource "mem". -/
theorem populate_rejects_unsupported_resource_witness :
    ((listingFS sampleEntries).ReadDir "/etc/interferencemetrics" = .ok sampleEntries ∧
      ("mem" : String) ≠ "cpu" ∧ ("mem" : String) ≠ "bio" ∧
      ∃ e ∈ sampleEntries, e.IsDir = false ∧ e.Name ≠ "..data") ∧
    ∃ err, populateInterferenceMetrics (listingFS sampleEntries)
        "/etc/interferencemetrics" "mem" = (none, some err) ∧
      (err = LoadError.unsupportedResource "mem" ∨
        ∃ name msg, err = LoadError.reading name msg) :=
  ⟨⟨rfl, by decide, by decide, by decide⟩,
    populate_rejects_unsupported_resource (listingFS sampleEntries) "/etc/interferencemetrics"
      "mem" sampleEntries rfl (by decide) (by decide) (by decide)⟩

/-- C12 (as the claim states it, refuted): a directory without entries, and a
directory holding only a subdirectory and `..data`, are loaded without error:
the loader returns the empty table, and `NewInterferenceCPU` a plugin. -/
theorem empty_directory_loads :
    populateInterferenceMetrics (listingFS []) "/etc/interferencemetrics" "cpu" =
      (some GoMap.empty, none) ∧
    populateInterferenceMetrics (listingFS sentinelEntries) "/etc/interferencemetrics" "cpu" =
      (some GoMap.empty, none) ∧
    (NewInterferenceCPU (listingFS sentinelEntries) scenarioHandle).2 = none ∧
    (NewInterferenceCPU (listingFS sentinelEntries) scenarioHandle).1.isSome = true :=
  ⟨rfl, rfl, rfl, rfl⟩

/-- C12 (amended): when the listed directory contains no data file (no entries,
or only directories and the `..data` entry), `populateInterferenceMetrics`
with resource "cpu" or "bio" returns the empty table and no error; for the
metrics directory of the plugins, `NewInterferenceCPU` and
`NewInterferenceBIO` then return a plugin over the empty table, and no error. -/
theorem populate_without_data_file (fs : FileSystem) (dirPath resource : String)
    (entries : List DirEntry) (h : Handle)
    (hres : resource = "cpu" ∨ resource = "bio")
    (hdir : fs.ReadDir dirPath = .ok entries)
    (hall : ∀ e ∈ entries, e.IsDir = true ∨ e.Name = "..data") :
    populateInterferenceMetrics fs dirPath resource = (some GoMap.empty, none) ∧
    (dirPath = "/etc/interferencemetrics" →
      NewInterferenceCPU fs h = (some ⟨h, GoMap.empty⟩, none) ∧
      NewInterferenceBIO fs h = (some ⟨h, GoMap.empty⟩, none)) := by
  have hsk : ∀ e ∈ entries, e.skipped = true := by
    intro e he
    rcases hall e he with hd | hn
    · simp [DirEntry.skipped, hd]
    · simp [DirEntry.skipped, hn]
  have key : ∀ r, r = "cpu" ∨ r = "bio" →
      populateInterferenceMetrics fs dirPath r = (some GoMap.empty, none) := by
    intro r _
    rw [populate_eq_loop fs dirPath r entries hdir]
    exact populateLoop_all_skipped fs dirPath r entries GoMap.empty hsk
  refine ⟨key resource hres, ?_⟩
  intro hpath
  subst hpath
  constructor
  · simp only [NewInterferenceCPU, key "cpu" (Or.inl rfl)]
    rfl
  · simp only [ NewInterferenceBIO, key "bio" (Or.inr rfl)]
    rfl

/-- C12 (witness): the amended claim on the directory holding a subdirectory
and `..data` only. -/
theorem populate_without_data_file_witness :
    ((("cpu" : String) = "cpu" ∨ ("cpu" : String) = "bio") ∧
      (listingFS sentinelEntries).ReadDir "/etc/interferencemetrics" = .ok sentinelEntries ∧
      ∀ e ∈ sentinelEntries, e.IsDir = true ∨ e.Name = "..data") ∧
    populateInterferenceMetrics (listingFS sentinelEntries) "/etc/interferencemetrics" "cpu" =
      (some GoMap.empty, none) ∧
    NewInterferenceCPU (listingFS sentinelEntries) scenarioHandle =
      (some ⟨scenarioHandle, GoMap.empty⟩, none) ∧
    NewInterferenceBIO (listingFS sentinelEntries) scenarioHandle =
      (some ⟨scenarioHandle, GoMap.empty⟩, none) :=
  have hw := populate_without_data_file (listingFS sentinelEntries) "/etc/interferencemetrics"
    "cpu" sentinelEntries scenarioHandle (Or.inl rfl) rfl (by decide)
  ⟨⟨Or.inl rfl, rfl, by decide⟩, hw.1, (hw.2 rfl).1, (hw.2 rfl).2⟩

/-- C13: table loading is all-or-nothing. For every directory listing in which
some entry that is not skipped fails to read or decode, whatever its position
and whatever precedes it, `populateInterferenceMetrics` returns an error
together with the nil table. -/
theorem populate_all_or_nothing (fs : FileSystem) (dirPath resource : String)
    (entries : List DirEntry) (hdir : fs.ReadDir dirPath = .ok entries)
    (hbad : ∃ e ∈ entries, e.IsDir = false ∧ e.Name ≠ "..data" ∧
      ∃ err, readInterferenceData fs (fs.Join dirPath e.Name) = .error err) :
    ∃ err, populateInterferenceMetrics fs dirPath resource = (none, some err) := by
  rw [populate_eq_loop fs dirPath resource entries hdir]
  obtain ⟨e, he, hd, hn, herr⟩ := hbad
  exact populateLoop_fails fs dirPath resource entries GoMap.empty
    ⟨e, he, (skipped_eq_false_iff e).2 ⟨hd, hn⟩, herr⟩

/-- C13 (witness): the claim on a directory whose third file does not decode,
after two files that do. -/
theorem populate_all_or_nothing_witness :
    ((listingFS brokenEntries).ReadDir "/etc/interferencemetrics" = .ok brokenEntries ∧
      ∃ e ∈ brokenEntries, e.IsDir = false ∧ e.Name ≠ "..data" ∧
        ∃ err, readInterferenceData (listingFS brokenEntries)
          ((listingFS brokenEntries).Join "/etc/interferencemetrics" e.Name) = .error err) ∧
    ∃ err, populateInterferenceMetrics (listingFS brokenEntries)
      "/etc/interferencemetrics" "cpu" = (none, some err) :=
  have hbad : ∃ e ∈ brokenEntries, e.IsDir = false ∧ e.Name ≠ "..data" ∧
      ∃ err, readInterferenceData (listingFS brokenEntries)
        ((listingFS brokenEntries).Join "/etc/interferencemetrics" e.Name) = .error err :=
    ⟨⟨"bad", FileMode.regular⟩, by decide, rfl, by decide, "invalid character", rfl⟩
  ⟨⟨rfl, hbad⟩, populate_all_or_nothing (listingFS brokenEntries) "/etc/interferencemetrics"
    "cpu" brokenEntries rfl hbad⟩

/-- C14 (as the claim states it, refuted): a listed entry `a` that is a symbolic
link, not a regular file, is read like a file: the load succeeds and the table
has the key `a`, although no listed entry is regular. -/
theorem symlink_entry_is_loaded :
    populateInterferenceMetrics (listingFS symlinkEntries) "/etc/interferencemetrics" "cpu" =
      (some (GoMap.empty.insert "a" (Float64.ofInt 10)), none) ∧
    (GoMap.empty.insert "a" (Float64.ofInt 10)) "a" = some (Float64.ofInt 10) ∧
    ¬ ∃ e ∈ symlinkEntries, e.IsRegular = true ∧ e.Name ≠ "..data" ∧ e.Name = "a" :=
  ⟨rfl, by decide, by decide⟩

/-- C14 (amended): with resource "cpu" (resp. "bio"), when
`populateInterferenceMetrics` succeeds, the keys of the returned table are
exactly the names of the listed entries that are not directories (regular
files or not) and not named `..data`, and each such name is mapped to the CPU
field (resp. the block-I/O field) of the record decoded from that entry's
file. Skipped entries cannot make the load fail: it succeeds as soon as every
entry that is not skipped reads and decodes. And they contribute nothing: any
listing with the same entries that are not skipped gives the same result. -/
theorem populate_table_contents (fs : FileSystem) (dirPath resource : String)
    (entries : List DirEntry)
    (hres : resource = "cpu" ∨ resource = "bio")
    (hdir : fs.ReadDir dirPath = .ok entries) :
    (∀ t, populateInterferenceMetrics fs dirPath resource = (some t, none) →
      (∀ k, (∃ v, t k = some v) ↔
        ∃ e ∈ entries, e.IsDir = false ∧ e.Name ≠ "..data" ∧ e.Name = k) ∧
      (∀ e ∈ entries, e.IsDir = false → e.Name ≠ "..data" →
        ∃ data, readInterferenceData fs (fs.Join dirPath e.Name) = .ok data ∧
          t e.Name = some (if resource = "cpu" then data.CPU else data.Blk))) ∧
    ((∀ e ∈ entries, e.IsDir = false → e.Name ≠ "..data" →
        ∃ data, readInterferenceData fs (fs.Join dirPath e.Name) = .ok data) →
      ∃ t, populateInterferenceMetrics fs dirPath resource = (some t, none)) ∧
    (∀ entries' : List DirEntry,
      entries'.filter (fun e => !e.skipped) = entries.filter (fun e => !e.skipped) →
      populateInterferenceMetrics { fs with ReadDir := fun _ => .ok entries' } dirPath resource =
        populateInterferenceMetrics fs dirPath resource) := by
  have hloop := populate_eq_loop fs dirPath resource entries hdir
  refine ⟨?_, ?_, ?_⟩
  · intro t hok
    have hok' : populateLoop fs dirPath resource entries GoMap.empty = (some t, none) := by
      rw [← hloop]; exact hok
    constructor
    · intro k
      obtain ⟨h1, h2⟩ :=
        populateLoop_ok_spec fs dirPath resource hres entries GoMap.empty t hok' k
      constructor
      · rintro ⟨v, hv⟩
        by_contra hno
        have : t k = GoMap.empty k := h2 (fun ⟨e, he, hs, hn⟩ =>
          hno ⟨e, he, ((skipped_eq_false_iff e).1 hs).1, ((skipped_eq_false_iff e).1 hs).2, hn⟩)
        rw [hv] at this
        cases this
      · rintro ⟨e, he, hd, hn, hk⟩
        obtain ⟨data, _, ht⟩ := h1 ⟨e, he, (skipped_eq_false_iff e).2 ⟨hd, hn⟩, hk⟩
        exact ⟨_, ht⟩
    · intro e he hd hn
      obtain ⟨h1, _⟩ :=
        populateLoop_ok_spec fs dirPath resource hres entries GoMap.empty t hok' e.Name
      exact h1 ⟨e, he, (skipped_eq_false_iff e).2 ⟨hd, hn⟩, rfl⟩
  · intro hall
    rw [hloop]
    exact populateLoop_succeeds fs dirPath resource hres entries GoMap.empty
      (fun e he hs => hall e he ((skipped_eq_false_iff e).1 hs).1 ((skipped_eq_false_iff e).1 hs).2)
  · intro entries' hsame
    rw [hloop, populate_eq_loop { fs with ReadDir := fun _ => .ok entries' } dirPath resource
      entries' rfl, populateLoop_listing_irrelevant, populateLoop_filter fs dirPath resource entries',
      hsame, ← populateLoop_filter]

/-- C14 (witness): the amended claim on the directory `..data`, `a`, `sub/`, `b`
with resource "cpu": the load succeeds, the table has the keys `a` and `b`
only, and the listing `a`, `b` alone gives the same result. -/
theorem populate_table_contents_witness :
    ((("cpu" : String) = "cpu" ∨ ("cpu" : String) = "bio") ∧
      (listingFS sampleEntries).ReadDir "/etc/interferencemetrics" = .ok sampleEntries ∧
      populateInterferenceMetrics (listingFS sampleEntries) "/etc/interferencemetrics" "cpu" =
        (some ((GoMap.empty.insert "a" (Float64.ofInt 10)).insert "b" (Float64.ofInt 3)),
          none)) ∧
    (∀ k, (∃ v, ((GoMap.empty.insert "a" (Float64.ofInt 10)).insert "b" (Float64.ofInt 3)) k
        = some v) ↔
      ∃ e ∈ sampleEntries, e.IsDir = false ∧ e.Name ≠ "..data" ∧ e.Name = k) ∧
    (∃ t, populateInterferenceMetrics (listingFS sampleEntries)
      "/etc/interferencemetrics" "cpu" = (some t, none)) ∧
    populateInterferenceMetrics
        { listingFS sampleEntries with
          ReadDir := fun _ => .ok [⟨"a", FileMode.regular⟩, ⟨"b", FileMode.regular⟩] }
        "/etc/interferencemetrics" "cpu" =
      populateInterferenceMetrics (listingFS sampleEntries) "/etc/interferencemetrics" "cpu" :=
  have hw := populate_table_contents (listingFS sampleEntries) "/etc/interferencemetrics" "cpu"
    sampleEntries (Or.inl rfl) rfl
  have hall : ∀ e ∈ sampleEntries, e.IsDir = false → e.Name ≠ "..data" →
      ∃ data, readInterferenceData (listingFS sampleEntries)
        ((listingFS sampleEntries).Join "/etc/interferencemetrics" e.Name) = .ok data := by
    intro e he hd hn
    simp only [sampleEntries, List.mem_cons, List.mem_singleton, List.not_mem_nil,
      or_false] at he
    rcases he with rfl | rfl | rfl | rfl
    · exact absurd rfl hn
    · exact ⟨sampleRecord 10 4, rfl⟩
    · exact absurd hd (by decide)
    · exact ⟨sampleRecord 3 7, rfl⟩
  ⟨⟨Or.inl rfl, rfl, rfl⟩,
    (hw.1 ((GoMap.empty.insert "a" (Float64.ofInt 10)).insert "b" (Float64.ofInt 3)) rfl).1,
    hw.2.1 hall,
    hw.2.2 [⟨"a", FileMode.regular⟩, ⟨"b", FileMode.regular⟩] rfl⟩

/-! ## Properties of `Score` -/

/-- The accumulation loop of `Score` adds up the coefficients of the
contributing workloads, in order. -/
theorem score_loop_eq (table : GoMap Float64) (pods : List PodInfo) (acc : Float64) :
    pods.foldl (fun iscore pi =>
      let p := pi.Pod
      match p.Labels "nextflow.io/taskName" with
      | none => iscore
      | some taskName =>
        let key := sanitizeTaskName taskName
        match table key with
        | some metric => Float64.add iscore metric
        | none => iscore) acc =
    (pods.filterMap (coefficient table)).foldl Float64.add acc := by
  induction pods generalizing acc with
  | nil => rfl
  | cons pi rest ih =>
    simp only [List.foldl_cons]
    rw [ih]
    cases hl : pi.Pod.Labels "nextflow.io/taskName" with
    | none =>
      have hc : coefficient table pi = none := by simp [coefficient, hl]
      rw [List.filterMap_cons_none hc]
    | some taskName =>
      cases ht : table (sanitizeTaskName taskName) with
      | none =>
        have hc : coefficient table pi = none := by simp [coefficient, hl, ht]
        rw [List.filterMap_cons_none hc]
        simp only [ht]
      | some metric =>
        have hc : coefficient table pi = some metric := by simp [coefficient, hl, ht]
        rw [List.filterMap_cons_some hc]
        simp only [ht, List.foldl_cons]

/-- The method `Score` on a node that resolves, in closed form. -/
theorem bio_score_eq (h : Handle) (table : GoMap Float64) (nodeName : String)
    (nodeInfo : NodeInfo) (hget : h.Get nodeName = .ok nodeInfo) :
    InterferenceBIO.Score ⟨h, table⟩ nodeName =
      (Float64.toInt64 (Float64.Round (matchedSum table nodeInfo.Pods)), none) := by
  simp only [ InterferenceBIO.Score, hget, matchedSum, score_loop_eq]

/-- The two plugins score alike. -/
theorem cpu_score_eq (h : Handle) (table : GoMap Float64) (nodeName : String) :
    InterferenceCPU.Score ⟨h, table⟩ nodeName = InterferenceBIO.Score ⟨h, table⟩ nodeName :=
  rfl

/-- The sum over the contributing workloads ignores every other workload. -/
theorem matchedSum_filter (table : GoMap Float64) (pods : List PodInfo) :
    matchedSum table (pods.filter (contributes table)) = matchedSum table pods := by
  unfold matchedSum
  congr 1
  induction pods with
  | nil => rfl
  | cons pi rest ih =>
    cases hc : coefficient table pi with
    | none =>
      have : contributes table pi = false := by simp [contributes, hc]
      rw [List.filter_cons_of_neg (by simp [this]), List.filterMap_cons_none hc, ih]
    | some v =>
      have : contributes table pi = true := by simp [contributes, hc]
      rw [List.filter_cons_of_pos this, List.filterMap_cons_some hc,
        List.filterMap_cons_some hc, ih]

/-- A sanitized label is never a key that contains a special character. -/
theorem sanitized_ne_of_special (taskName k : String)
    (hk : ∃ c ∈ k.data, c = ' ' ∨ c = ':' ∨ c = '(' ∨ c = ')') :
    sanitizeTaskName taskName ≠ k := by
  intro heq
  obtain ⟨c, hc, hsp⟩ := hk
  rw [← heq, sanitizeTaskName_eq_spec] at hc
  obtain ⟨h1, h2, h3, h4⟩ := sanitizeSpec_clean taskName c hc
  rcases hsp with e | e | e | e
  · exact h1 e
  · exact h2 e
  · exact h3 e
  · exact h4 e

/-- Removing a key with a special character changes no workload's coefficient. -/
theorem coefficient_erase (table : GoMap Float64) (k : String)
    (hk : ∃ c ∈ k.data, c = ' ' ∨ c = ':' ∨ c = '(' ∨ c = ')') (pi : PodInfo) :
    coefficient (table.erase k) pi = coefficient table pi := by
  unfold coefficient
  cases pi.Pod.Labels "nextflow.io/taskName" with
  | none => rfl
  | some taskName =>
    simp only [GoMap.erase, sanitized_ne_of_special taskName k hk, if_false]

/-- The rounding of a finite float has no fractional bits. -/
theorem round_intValue (s : Bool) (m : Nat) (e : Int) :
    (Float64.Round (.finite s m e)).intValue? =
      some ((if s then -1 else 1) *
        (if 0 ≤ e then (m : Int) * 2 ^ e.toNat
          else (((m + 2 ^ ((-e).toNat - 1)) / 2 ^ (-e).toNat : Nat) : Int))) := by
  by_cases he : 0 ≤ e
  · simp [Float64.Round, Float64.intValue?, he]
  · simp [Float64.Round, Float64.intValue?, he]

/-- When the rounding lies in the `int64` range the conversion returns it. -/
theorem toInt64_round_of_fits (x : Float64) (h : x.RoundsIntoInt64) :
    (Float64.Round x).intValue? = some (Float64.toInt64 (Float64.Round x)) := by
  cases x with
  | inf s => simp [Float64.RoundsIntoInt64, Float64.Round, Float64.intValue?, IsInt64Value] at h
  | nan => simp [Float64.RoundsIntoInt64, Float64.Round, Float64.intValue?, IsInt64Value] at h
  | finite s m e =>
    unfold Float64.RoundsIntoInt64 at h
    rw [round_intValue] at h ⊢
    simp only [IsInt64Value, IsInt64] at h
    by_cases he : 0 ≤ e
    · simp only [he, if_true] at h ⊢
      simp only [Float64.Round, he, if_true, Float64.toInt64]
      cases s
      · simp only [Bool.false_eq_true, if_false, Int.one_mul] at h ⊢
        rw [if_pos h]
      · simp only [if_true, neg_one_mul] at h ⊢
        rw [if_pos h]
    · simp only [he, if_false] at h ⊢
      simp only [Float64.Round, he, if_false, Float64.toInt64, Int.le_refl, if_true,
        Int.toNat_zero, Int.pow_zero, Int.mul_one]
      cases s
      · simp only [Bool.false_eq_true, if_false, Int.one_mul] at h ⊢
        rw [if_pos h]
      · simp only [if_true, neg_one_mul] at h ⊢
        rw [if_pos h]

/-- Rounding half away from zero stays within one half of the value. -/
theorem half_away_near (m k : Nat) (hk : 0 < k) :
    2 * (((((m + 2 ^ (k - 1)) / 2 ^ k : Nat) : Int)) * 2 ^ k - (m : Int)).natAbs ≤ 2 ^ k := by
  have hK : 2 ^ k = 2 * 2 ^ (k - 1) := by
    obtain ⟨j, rfl⟩ : ∃ j, k = j + 1 := ⟨k - 1, by omega⟩
    simp [Nat.pow_succ, Nat.mul_comm]
  have hpos : 0 < 2 ^ (k - 1) := Nat.pow_pos (by decide)
  have hdm := Nat.div_add_mod (m + 2 ^ (k - 1)) (2 ^ k)
  have hlt := Nat.mod_lt (m + 2 ^ (k - 1)) (show 0 < 2 ^ k by omega)
  have hcast : ((((m + 2 ^ (k - 1)) / 2 ^ k : Nat) : Int)) * 2 ^ k =
      ((2 ^ k * ((m + 2 ^ (k - 1)) / 2 ^ k) : Nat) : Int) := by
    push_cast
    ring
  rw [hcast]
  generalize 2 ^ k * ((m + 2 ^ (k - 1)) / 2 ^ k) = P at *
  generalize (m + 2 ^ (k - 1)) % 2 ^ k = r at *
  generalize 2 ^ (k - 1) = H at *
  generalize 2 ^ k = K at *
  omega

/-- When the rounding lies in the `int64` range, the integer `Score` returns
for the accumulated value is an integer nearest to it. -/
theorem round_isNearestInt (x : Float64) (h : x.RoundsIntoInt64) :
    x.IsNearestInt (Float64.toInt64 (Float64.Round x)) := by
  have hz := toInt64_round_of_fits x h
  cases x with
  | inf s => simp [Float64.RoundsIntoInt64, Float64.Round, Float64.intValue?, IsInt64Value] at h
  | nan => simp [Float64.RoundsIntoInt64, Float64.Round, Float64.intValue?, IsInt64Value] at h
  | finite s m e =>
    rw [round_intValue] at hz
    simp only [Option.some.injEq] at hz
    rw [← hz]
    unfold Float64.IsNearestInt
    by_cases he : 0 ≤ e
    · have hk : (-e).toNat = 0 := by omega
      simp only [he, if_true, hk, Int.pow_zero, Int.mul_one, Int.sub_self, Int.natAbs_zero]
      decide
    · have hj : e.toNat = 0 := by omega
      have hk : 0 < (-e).toNat := by omega
      simp only [he, if_false, hj, Int.pow_zero, Int.mul_one]
      have hnear := half_away_near m (-e).toNat hk
      cases s
      · simp only [Bool.false_eq_true, if_false, Int.one_mul]
        exact hnear
      · simp only [if_true, neg_one_mul]
        have : (-(((m + 2 ^ ((-e).toNat - 1)) / 2 ^ (-e).toNat : Nat) : Int) * 2 ^ (-e).toNat
            - -(m : Int)).natAbs =
            ((((m + 2 ^ ((-e).toNat - 1)) / 2 ^ (-e).toNat : Nat) : Int) * 2 ^ (-e).toNat
              - (m : Int)).natAbs := by
          rw [← Int.natAbs_neg]
          congr 1
          ring
        rw [this]
        exact hnear

/-- A plus-signed result, finite or infinite, is non-negative. -/
theorem ite_inf_finite_nonneg (c : Prop) [Decidable c] (m : Nat) (e : Int) :
    (if c then Float64.inf false else Float64.finite false m e).IsNonneg := by
  by_cases h : c
  · rw [if_pos h]; exact rfl
  · rw [if_neg h]; exact Or.inl rfl

/-- Rounding a magnitude with a plus sign gives a non-negative float. -/
theorem roundToBinary64_nonneg (n : Nat) (e : Int) :
    (Float64.roundToBinary64 false n e).IsNonneg := by
  unfold Float64.roundToBinary64
  by_cases hn : n < 2 ^ 53
  · rw [if_pos hn]; exact Or.inl rfl
  · rw [if_neg hn]
    exact ite_inf_finite_nonneg _ _ _

/-- The last step of a finite addition whose exact sum is not negative. -/
theorem add_finite_nonneg (s t : Bool) (c g : Int) (hc : 0 ≤ c) :
    (if c = 0 then Float64.finite (s && t) 0 g
      else Float64.roundToBinary64 (decide (c < 0)) c.natAbs g).IsNonneg := by
  by_cases h0 : c = 0
  · rw [if_pos h0]; exact Or.inr rfl
  · rw [if_neg h0, decide_eq_false (by omega)]
    exact roundToBinary64_nonneg _ _

/-- The sum of two non-negative floats is non-negative. -/
theorem add_nonneg_float (a b : Float64) (ha : a.IsNonneg) (hb : b.IsNonneg) :
    (Float64.add a b).IsNonneg := by
  cases a with
  | nan => exact ha.elim
  | inf s =>
    cases b with
    | nan => exact hb.elim
    | inf t =>
      have hs : s = false := ha
      have ht : t = false := hb
      subst hs; subst ht
      exact rfl
    | finite t n f => exact ha
  | finite s m e =>
    cases b with
    | nan => exact hb.elim
    | inf t => exact hb
    | finite t n f =>
      have h1 : (0 : Int) ≤ (if s then -1 else 1) * ((m : Int) * 2 ^ (e - min e f).toNat) := by
        rcases ha with hs | hm
        · subst hs
          simp only [Bool.false_eq_true, if_false, Int.one_mul]
          positivity
        · subst hm
          simp
      have h2 : (0 : Int) ≤ (if t then -1 else 1) * ((n : Int) * 2 ^ (f - min e f).toNat) := by
        rcases hb with ht | hn
        · subst ht
          simp only [Bool.false_eq_true, if_false, Int.one_mul]
          positivity
        · subst hn
          simp
      exact add_finite_nonneg s t _ (min e f) (Int.add_nonneg h1 h2)

/-- A sum of non-negative floats, started from a non-negative float, is
non-negative. -/
theorem foldl_add_nonneg (vs : List Float64) (acc : Float64) (hacc : acc.IsNonneg)
    (hvs : ∀ v ∈ vs, v.IsNonneg) : (vs.foldl Float64.add acc).IsNonneg := by
  induction vs generalizing acc with
  | nil => exact hacc
  | cons v rest ih =>
    exact ih _ (add_nonneg_float acc v hacc (hvs v (List.mem_cons_self _ _)))
      (fun w hw => hvs w (List.mem_cons_of_mem _ hw))

/-- Every coefficient a workload contributes is a value of the table. -/
theorem coefficient_in_table (table : GoMap Float64) (pi : PodInfo) (v : Float64)
    (h : coefficient table pi = some v) : ∃ k, table k = some v := by
  unfold coefficient at h
  cases hl : pi.Pod.Labels "nextflow.io/taskName" with
  | none => rw [hl] at h; cases h
  | some taskName => rw [hl] at h; exact ⟨_, h⟩

/-- Over a table of non-negative coefficients the accumulated sum is non-negative. -/
theorem matchedSum_nonneg (table : GoMap Float64) (pods : List PodInfo)
    (htable : ∀ k v, table k = some v → v.IsNonneg) : (matchedSum table pods).IsNonneg := by
  unfold matchedSum
  apply foldl_add_nonneg
  · exact Or.inl rfl
  · intro v hv
    obtain ⟨pi, _, hpi⟩ := List.mem_filterMap.1 hv
    obtain ⟨k, hk⟩ := coefficient_in_table table pi v hpi
    exact htable k v hk

/-- A non-negative float whose rounding lies in the `int64` range converts to a
non-negative integer. -/
theorem toInt64_round_nonneg (x : Float64) (hx : x.IsNonneg) (h : x.RoundsIntoInt64) :
    0 ≤ Float64.toInt64 (Float64.Round x) := by
  have hz := toInt64_round_of_fits x h
  cases x with
  | inf s => simp [Float64.RoundsIntoInt64, Float64.Round, Float64.intValue?, IsInt64Value] at h
  | nan => exact hx.elim
  | finite s m e =>
    rw [round_intValue] at hz
    simp only [Option.some.injEq] at hz
    rw [← hz]
    rcases hx with hs | hm
    · subst hs
      simp only [Bool.false_eq_true, if_false, Int.one_mul]
      split
      · positivity
      · exact Int.ofNat_nonneg _
    · subst hm
      have : (0 + 2 ^ ((-e).toNat - 1)) / 2 ^ (-e).toNat = 0 ∨ 0 ≤ e := by
        by_cases he : 0 ≤ e
        · exact Or.inr he
        · left
          apply Nat.div_eq_of_lt
          rw [Nat.zero_add]
          exact Nat.pow_lt_pow_right (by decide) (by omega)
      rcases this with hq | he
      · rw [hq]; split <;> simp
      · simp [he]

/-! ## Claims about `Score` -/

/-- C15 (as the claim states it, refuted): with the coefficient `10^19` under
the key `big` and one workload labeled `big`, the accumulated sum is `10^19`,
no `int64` is an integer nearest to it, and `Score` returns `-2^63`, which is
not the rounding of the sum. -/
theorem score_not_rounded_sum_out_of_range :
    InterferenceBIO.Score ⟨podsHandle [labeledPod "p" "big"], bigTable⟩ "N" =
      (-9223372036854775808, none) ∧
    matchedSum bigTable [labeledPod "p" "big"] = Float64.finite false 4882812500000000 11 ∧
    (4882812500000000 : Int) * 2 ^ 11 = 10000000000000000000 ∧
    (matchedSum bigTable [labeledPod "p" "big"]).IsNearestInt 10000000000000000000 ∧
    ¬ (matchedSum bigTable [labeledPod "p" "big"]).IsNearestInt (-9223372036854775808) ∧
    ∀ z, (matchedSum bigTable [labeledPod "p" "big"]).IsNearestInt z → ¬ IsInt64 z := by
  refine ⟨by decide, by decide, by decide, by decide, by decide, ?_⟩
  intro z hz hrange
  have hs : matchedSum bigTable [labeledPod "p" "big"] =
      Float64.finite false 4882812500000000 11 := by decide
  rw [hs] at hz
  have h1 : (-11 : Int).toNat = 0 := by decide
  have h2 : (11 : Int).toNat = 11 := by decide
  simp only [Float64.IsNearestInt, h1, h2, Bool.false_eq_true, if_false, Int.pow_zero,
    Int.mul_one, Int.one_mul] at hz
  unfold IsInt64 at hrange
  omega

/-- C15 (amended): for every table and every node that resolves, `Score` (of
either plugin) returns `int64(math.Round(s))` with the nil status, where `s` is
the float64 sum, accumulated in workload order, of the table entries under the
sanitized labels of exactly the workloads that carry the label and whose
sanitized label is a key; when the rounding of `s` lies in the `int64` range
the result is an integer nearest to `s`; and any pod list with the same
contributing workloads gives the same result and status. -/
theorem score_rounds_matched_sum (h : Handle) (table : GoMap Float64) (nodeName : String)
    (nodeInfo : NodeInfo) (hget : h.Get nodeName = .ok nodeInfo) :
    InterferenceBIO.Score ⟨h, table⟩ nodeName =
      (Float64.toInt64 (Float64.Round (matchedSum table nodeInfo.Pods)), none) ∧
    InterferenceCPU.Score ⟨h, table⟩ nodeName =
      (Float64.toInt64 (Float64.Round (matchedSum table nodeInfo.Pods)), none) ∧
    ((matchedSum table nodeInfo.Pods).RoundsIntoInt64 →
      (matchedSum table nodeInfo.Pods).IsNearestInt
        ( InterferenceBIO.Score ⟨h, table⟩ nodeName).1) ∧
    (∀ (h' : Handle) (nodeInfo' : NodeInfo), h'.Get nodeName = .ok nodeInfo' →
      nodeInfo'.Pods.filter (contributes table) = nodeInfo.Pods.filter (contributes table) →
      InterferenceBIO.Score ⟨h', table⟩ nodeName = InterferenceBIO.Score ⟨h, table⟩ nodeName) := by
  have hb := bio_score_eq h table nodeName nodeInfo hget
  refine ⟨hb, (cpu_score_eq h table nodeName).trans hb, ?_, ?_⟩
  · intro hfit
    rw [hb]
    exact round_isNearestInt _ hfit
  · intro h' nodeInfo' hget' hsame
    rw [hb, bio_score_eq h' table nodeName nodeInfo' hget',
      ← matchedSum_filter table nodeInfo'.Pods, hsame, matchedSum_filter]

/-- C15 (witness): the amended claim on node X of the scenario, compared with
the same two workloads among two that do not contribute. -/
theorem score_rounds_matched_sum_witness :
    scenarioHandle.Get "X" =
      .ok ⟨[labeledPod "x1" "wf:step (A)", labeledPod "x2" "wf:step (B)"]⟩ ∧
    (matchedSum scenarioTableDotted
      [labeledPod "x1" "wf:step (A)", labeledPod "x2" "wf:step (B)"]).RoundsIntoInt64 ∧
    (matchedSum scenarioTableDotted
      [labeledPod "x1" "wf:step (A)", labeledPod "x2" "wf:step (B)"]).IsNearestInt
        ( InterferenceBIO.Score ⟨scenarioHandle, scenarioTableDotted⟩ "X").1 ∧
    InterferenceBIO.Score ⟨podsHandle scenarioPodsPadded, scenarioTableDotted⟩ "X" =
      InterferenceBIO.Score ⟨scenarioHandle, scenarioTableDotted⟩ "X" :=
  have hw := score_rounds_matched_sum scenarioHandle scenarioTableDotted "X"
    ⟨[labeledPod "x1" "wf:step (A)", labeledPod "x2" "wf:step (B)"]⟩ rfl
  ⟨rfl, by decide, hw.2.2.1 (by decide),
    hw.2.2.2 (podsHandle scenarioPodsPadded) ⟨scenarioPodsPadded⟩ rfl rfl⟩

/-- C16: for every table and every node that resolves and on which no workload
carries the label `nextflow.io/taskName` (a node without workloads included),
`Score` (of either plugin) returns 0 with the nil status. -/
theorem score_zero_without_label (h : Handle) (table : GoMap Float64) (nodeName : String)
    (nodeInfo : NodeInfo) (hget : h.Get nodeName = .ok nodeInfo)
    (hno : ∀ pi ∈ nodeInfo.Pods, pi.Pod.Labels "nextflow.io/taskName" = none) :
    InterferenceBIO.Score ⟨h, table⟩ nodeName = (0, none) ∧
    InterferenceCPU.Score ⟨h, table⟩ nodeName = (0, none) := by
  have hsum : matchedSum table nodeInfo.Pods = Float64.zero := by
    unfold matchedSum
    have : nodeInfo.Pods.filterMap (coefficient table) = [] := by
      rw [List.filterMap_eq_nil_iff]
      intro pi hpi
      simp [coefficient, hno pi hpi]
    rw [this]
    rfl
  have hb : InterferenceBIO.Score ⟨h, table⟩ nodeName = (0, none) := by
    rw [bio_score_eq h table nodeName nodeInfo hget, hsum]
    rfl
  exact ⟨hb, (cpu_score_eq h table nodeName).trans hb⟩

/-- C16 (witness): the claim on node Z of the scenario, which hosts no
workload, and on a node hosting one workload without label. -/
theorem score_zero_without_label_witness :
    (scenarioHandle.Get "Z" = .ok ⟨[]⟩ ∧
      InterferenceBIO.Score ⟨scenarioHandle, scenarioTableDotted⟩ "Z" = (0, none) ∧
      InterferenceCPU.Score ⟨scenarioHandle, scenarioTableDotted⟩ "Z" = (0, none)) ∧
    ((∀ pi ∈ [unlabeledPod "u"], pi.Pod.Labels "nextflow.io/taskName" = none) ∧
      InterferenceBIO.Score ⟨podsHandle [unlabeledPod "u"], scenarioTableDotted⟩ "N" =
        (0, none) ∧
      InterferenceCPU.Score ⟨podsHandle [unlabeledPod "u"], scenarioTableDotted⟩ "N" =
        (0, none)) :=
  have hu : ∀ pi ∈ [unlabeledPod "u"], pi.Pod.Labels "nextflow.io/taskName" = none := by
    intro pi hpi
    rw [List.mem_singleton] at hpi
    subst hpi
    rfl
  ⟨⟨rfl, score_zero_without_label scenarioHandle scenarioTableDotted "Z" ⟨[]⟩ rfl
      (fun pi hpi => by cases hpi)⟩,
    ⟨hu, score_zero_without_label (podsHandle [unlabeledPod "u"]) scenarioTableDotted "N"
      ⟨[unlabeledPod "u"]⟩ rfl hu⟩⟩

/-- C17 (as the claim states it, refuted): with the coefficient `-5` under the
key `neg` and one workload labeled `neg`, `Score` returns -5; and with the
coefficient `10^19`, which is not negative, the conversion to `int64` is out
of range and `Score` returns `-2^63`. -/
theorem score_negative :
    InterferenceBIO.Score ⟨podsHandle [labeledPod "p" "neg"], negativeTable⟩ "N" = (-5, none) ∧
    ¬ (0 : Int) ≤ ( InterferenceBIO.Score ⟨podsHandle [labeledPod "p" "neg"], negativeTable⟩ "N").1 ∧
    (Float64.ofInt 10000000000000000000).IsNonneg ∧
    ¬ (0 : Int) ≤ ( InterferenceBIO.Score ⟨podsHandle [labeledPod "p" "big"], bigTable⟩ "N").1 := by
  decide

/-- C17 (amended): for every node and every table whose coefficients are all
non-negative, if the rounding of the accumulated sum lies in the `int64` range
whenever the node resolves, the RawScore returned by `Score` is a non-negative
integer. -/
theorem score_nonneg (h : Handle) (table : GoMap Float64) (nodeName : String)
    (htable : ∀ k v, table k = some v → v.IsNonneg)
    (hfit : ∀ nodeInfo, h.Get nodeName = .ok nodeInfo →
      (matchedSum table nodeInfo.Pods).RoundsIntoInt64) :
    0 ≤ ( InterferenceBIO.Score ⟨h, table⟩ nodeName).1 ∧
    0 ≤ ( InterferenceCPU.Score ⟨h, table⟩ nodeName).1 := by
  have hb : 0 ≤ ( InterferenceBIO.Score ⟨h, table⟩ nodeName).1 := by
    cases hget : h.Get nodeName with
    | error err =>
      simp only [ InterferenceBIO.Score, hget]
      exact Int.le_refl 0
    | ok nodeInfo =>
      rw [bio_score_eq h table nodeName nodeInfo hget]
      exact toInt64_round_nonneg _ (matchedSum_nonneg table nodeInfo.Pods htable)
        (hfit nodeInfo hget)
  exact ⟨hb, by rw [cpu_score_eq]; exact hb⟩

/-- C17 (witness): the amended claim on node X of the scenario. -/
theorem score_nonneg_witness :
    ((∀ k v, scenarioTableDotted k = some v → v.IsNonneg) ∧
      ∀ nodeInfo, scenarioHandle.Get "X" = .ok nodeInfo →
        (matchedSum scenarioTableDotted nodeInfo.Pods).RoundsIntoInt64) ∧
    0 ≤ ( InterferenceBIO.Score ⟨scenarioHandle, scenarioTableDotted⟩ "X").1 ∧
    0 ≤ ( InterferenceCPU.Score ⟨scenarioHandle, scenarioTableDotted⟩ "X").1 :=
  have htable : ∀ k v, scenarioTableDotted k = some v → v.IsNonneg := by
    intro k v hk
    unfold scenarioTableDotted GoMap.insert GoMap.empty at hk
    by_cases hB : k = "wf.step.B."
    · rw [if_pos hB] at hk
      cases hk
      decide
    · rw [if_neg hB] at hk
      by_cases hA : k = "wf.step.A."
      · rw [if_pos hA] at hk
        cases hk
        decide
      · rw [if_neg hA] at hk
        cases hk
  have hfit : ∀ nodeInfo, scenarioHandle.Get "X" = .ok nodeInfo →
      (matchedSum scenarioTableDotted nodeInfo.Pods).RoundsIntoInt64 := by
    intro nodeInfo hget
    have : nodeInfo = ⟨[labeledPod "x1" "wf:step (A)", labeledPod "x2" "wf:step (B)"]⟩ := by
      have h0 : scenarioHandle.Get "X" =
          .ok ⟨[labeledPod "x1" "wf:step (A)", labeledPod "x2" "wf:step (B)"]⟩ := rfl
      rw [h0] at hget
      cases hget
      rfl
    subst this
    decide
  ⟨⟨htable, hfit⟩, score_nonneg scenarioHandle scenarioTableDotted "X" htable hfit⟩

/-- C18: table entries whose key is not in canonical form are unreachable. For
every table, every node and every key containing a space, `:`, `(` or `)`,
removing that entry from the table does not change the result of `Score` (of
either plugin): every lookup key is an output of `sanitizeTaskName`. -/
theorem score_ignores_noncanonical_key (h : Handle) (table : GoMap Float64)
    (nodeName k : String) (hk : ∃ c ∈ k.data, c = ' ' ∨ c = ':' ∨ c = '(' ∨ c = ')') :
    InterferenceBIO.Score ⟨h, table.erase k⟩ nodeName = InterferenceBIO.Score ⟨h, table⟩ nodeName ∧
    InterferenceCPU.Score ⟨h, table.erase k⟩ nodeName =
      InterferenceCPU.Score ⟨h, table⟩ nodeName := by
  have hb : InterferenceBIO.Score ⟨h, table.erase k⟩ nodeName =
      InterferenceBIO.Score ⟨h, table⟩ nodeName := by
    cases hget : h.Get nodeName with
    | error err => simp only [ InterferenceBIO.Score, hget]
    | ok nodeInfo =>
      rw [bio_score_eq h _ nodeName nodeInfo hget, bio_score_eq h _ nodeName nodeInfo hget]
      have : coefficient (table.erase k) = coefficient table :=
        funext (coefficient_erase table k hk)
      simp only [matchedSum, this]
  exact ⟨hb, by rw [cpu_score_eq, cpu_score_eq]; exact hb⟩

/-- C18 (witness): a file named "wf:step (A)" is loaded under that very name,
and the entry under that key can be removed without changing the score of
node X, whose first workload carries the label "wf:step (A)". -/
theorem score_ignores_noncanonical_key_witness :
    populateInterferenceMetrics (listingFS [⟨"wf:step (A)", FileMode.regular⟩])
      "/etc/interferencemetrics" "cpu" =
        (some (GoMap.empty.insert "wf:step (A)" (Float64.ofInt 10)), none) ∧
    (∃ c ∈ ("wf:step (A)" : String).data, c = ' ' ∨ c = ':' ∨ c = '(' ∨ c = ')') ∧
    scenarioTableExtra "wf:step (A)" = some (Float64.ofInt 7) ∧
    InterferenceBIO.Score ⟨scenarioHandle, scenarioTableExtra.erase "wf:step (A)"⟩ "X" =
      InterferenceBIO.Score ⟨scenarioHandle, scenarioTableExtra⟩ "X" ∧
    InterferenceCPU.Score ⟨scenarioHandle, scenarioTableExtra.erase "wf:step (A)"⟩ "X" =
      InterferenceCPU.Score ⟨scenarioHandle, scenarioTableExtra⟩ "X" :=
  ⟨rfl, by decide, by decide,
    score_ignores_noncanonical_key scenarioHandle scenarioTableExtra "X" "wf:step (A)"
      (by decide)⟩

/-! ## Further claims about normalization and about the two plugins -/

/-- For a raw score between zero and a positive maximum the quotient of the
rescaling lies between 0 and `MAX_SCORE`. -/
theorem quotient_bounds (m raw : Int) (hpos : 0 < m) (h0 : 0 ≤ raw) (hle : raw ≤ m) :
    0 ≤ Int.tdiv (raw * MaxNodeScore) m ∧ Int.tdiv (raw * MaxNodeScore) m ≤ MaxNodeScore := by
  constructor
  · exact Int.tdiv_nonneg (by unfold MaxNodeScore; omega) (by omega)
  · have hmono := tdiv_mono (raw * MaxNodeScore) (m * MaxNodeScore) m hpos
      (by unfold MaxNodeScore; omega)
    rwa [Int.mul_tdiv_cancel_left _ (by omega)] at hmono

/-- C19: for every list of raw scores that are all non-negative and at most
`(2^63 - 1) / 100`, `NormalizeScore` (of either plugin) computes without
overflow: every product, quotient and difference it forms lies in the `int64`
range, so the list it leaves is the one the formula gives over the integers;
and every final score lies in `0 .. 100`. -/
theorem normalizeScore_without_overflow (ib : InterferenceBIO) (ic : InterferenceCPU)
    (scores : List NodeScore)
    (h : ∀ node ∈ scores, 0 ≤ node.Score ∧ node.Score ≤ (2 ^ 63 - 1) / 100) :
    (∀ node ∈ scores, IsInt64 (node.Score * MaxNodeScore) ∧
      (0 < InterferenceBIO.higherScore scores →
        IsInt64 (Int.tdiv (node.Score * MaxNodeScore) ( InterferenceBIO.higherScore scores)) ∧
        IsInt64 (MaxNodeScore -
          Int.tdiv (node.Score * MaxNodeScore) ( InterferenceBIO.higherScore scores)))) ∧
    (ib.NormalizeScore scores).1 =
      (if 0 < InterferenceBIO.higherScore scores then
        scores.map (fun node =>
          ⟨node.Name, finalScore ( InterferenceBIO.higherScore scores) node.Score⟩)
      else scores) ∧
    ic.NormalizeScore scores = ib.NormalizeScore scores ∧
    (∀ node ∈ (ib.NormalizeScore scores).1, 0 ≤ node.Score ∧ node.Score ≤ 100) ∧
    (∀ node ∈ (ic.NormalizeScore scores).1, 0 ≤ node.Score ∧ node.Score ≤ 100) := by
  obtain ⟨_, hle, _⟩ := foldl_higher_spec scores 0
  have hmax : ∀ node ∈ scores, node.Score ≤ InterferenceBIO.higherScore scores := hle
  have hprod : ∀ node ∈ scores, 0 ≤ node.Score * MaxNodeScore ∧
      node.Score * MaxNodeScore < 2 ^ 63 := by
    intro node hn
    obtain ⟨h0, h1⟩ := h node hn
    unfold MaxNodeScore
    omega
  have hlist : (ib.NormalizeScore scores).1 =
      (if 0 < InterferenceBIO.higherScore scores then
        scores.map (fun node =>
          ⟨node.Name, finalScore ( InterferenceBIO.higherScore scores) node.Score⟩)
      else scores) := by
    rw [normalizeScore_eq]
    by_cases hpos : 0 < InterferenceBIO.higherScore scores
    · simp only [hpos, if_true]
      apply List.map_congr_left
      intro node hn
      exact rescaleNode_of_fits _ node hpos
        (by have := (hprod node hn).1; unfold MaxNodeScore at *; omega) (hprod node hn).2
    · simp only [hpos, if_false]
  have hrange : ∀ node ∈ (ib.NormalizeScore scores).1, 0 ≤ node.Score ∧ node.Score ≤ 100 := by
    rw [hlist]
    by_cases hpos : 0 < InterferenceBIO.higherScore scores
    · simp only [hpos, if_true, List.mem_map]
      rintro node ⟨raw, hraw, rfl⟩
      obtain ⟨hq0, hq1⟩ := quotient_bounds _ raw.Score hpos (h raw hraw).1 (hmax raw hraw)
      show 0 ≤ finalScore _ raw.Score ∧ finalScore _ raw.Score ≤ 100
      unfold finalScore
      unfold MaxNodeScore at *
      omega
    · simp only [hpos, if_false]
      intro node hn
      have h0 := (h node hn).1
      have h1 := hmax node hn
      omega
  refine ⟨?_, hlist, cpu_normalizeScore_eq ic ib scores, hrange, ?_⟩
  · intro node hn
    obtain ⟨hp0, hp1⟩ := hprod node hn
    refine ⟨⟨by omega, hp1⟩, ?_⟩
    intro hpos
    obtain ⟨hq0, hq1⟩ := quotient_bounds _ node.Score hpos (h node hn).1 (hmax node hn)
    unfold IsInt64
    unfold MaxNodeScore at *
    omega
  · rw [cpu_normalizeScore_eq ic ib scores]
    exact hrange

/-- C19 (witness): the claim on the scenario list. -/
theorem normalizeScore_without_overflow_witness :
    (∀ node ∈ scenarioScores, 0 ≤ node.Score ∧ node.Score ≤ (2 ^ 63 - 1) / 100) ∧
    (∀ node ∈ ( scenarioBIO.NormalizeScore scenarioScores).1,
      0 ≤ node.Score ∧ node.Score ≤ 100) ∧
    (∀ node ∈ (scenarioCPU.NormalizeScore scenarioScores).1,
      0 ≤ node.Score ∧ node.Score ≤ 100) :=
  have hw := normalizeScore_without_overflow scenarioBIO scenarioCPU scenarioScores (by decide)
  ⟨by decide, hw.2.2.2.1, hw.2.2.2.2⟩

/-- C20: the two resource-kind variants are the same computation. For every
handle, table, node and raw-score list, `InterferenceBIO.Score` and
`InterferenceCPU.Score` return the same score and status, and
`InterferenceBIO.NormalizeScore` and `InterferenceCPU.NormalizeScore` leave
the same list and return the same status. -/
theorem bio_cpu_same_computation (h : Handle) (table : GoMap Float64) (nodeName : String)
    (scores : List NodeScore) :
    InterferenceBIO.Score ⟨h, table⟩ nodeName = InterferenceCPU.Score ⟨h, table⟩ nodeName ∧
    InterferenceBIO.NormalizeScore ⟨h, table⟩ scores =
      InterferenceCPU.NormalizeScore ⟨h, table⟩ scores :=
  ⟨rfl, rfl⟩

end InterferenceAware
